import Mathlib

/-!
Verification development for the darktable XMP sync tool's core:
the sidecar metadata extractor and directory scanner (`scanner.py`),
and the preview cache manager / render worker subsystem
(`preview_cache_manager.py`, `preview.py`).

Python dictionaries compare by key-value sets (insertion order is ignored
by `==`), so dictionaries are modelled as association lists kept sorted by
key with unique keys; structural equality of the model then coincides with
Python dictionary equality.  Python lists are Lean lists; `None` is `none`.
-/

deriving instance DecidableEq for Except

namespace DtSync

/-- Substring containment on character lists: Python's `pat in s`. -/
def containsAux (pat : List Char) : List Char → Bool
  | [] => pat.isPrefixOf []
  | c :: rest => pat.isPrefixOf (c :: rest) || containsAux pat rest

/-- Python's `pat in s` for strings. -/
def strContains (s pat : String) : Bool :=
  containsAux pat.toList s.toList

/-- The check `"darktable" in namespace` applied to an attribute namespace.
In the source this is evaluated on `qname.namespace`, which is `None` for an
attribute that carries no XML namespace; Python then raises `TypeError`
(the surrounding `except ValueError` does not catch it). -/
inductive PyErr : Type where
  | typeError
deriving DecidableEq, Repr

def nsHasDT : Option String → Except PyErr Bool
  | none => .error .typeError
  | some s => .ok (strContains s "darktable")

/-- Pure version of the namespace test, used for predicates on inputs
(defined for namespaced attributes; `none` never reaches it in proofs). -/
def nsHasDTb : Option String → Bool
  | none => false
  | some s => strContains s "darktable"

/-- Lexicographic strict order on character lists (code-point order, as
Python compares strings).  Kept as an executable Bool function so concrete
records reduce in the kernel. -/
def charListLt : List Char → List Char → Bool
  | _, [] => false
  | [], _ :: _ => true
  | a :: as, b :: bs =>
    if a < b then true
    else if b < a then false
    else charListLt as bs

/-- Python's `a < b` on strings. -/
def strLtb (a b : String) : Bool :=
  charListLt a.toList b.toList

/-- Python's `a <= b` on strings, as the sorting relation. -/
def pyLe (a b : String) : Prop :=
  strLtb b a = false

instance : DecidableRel pyLe := fun a b => instDecidableEqBool (strLtb b a) false

/-- Canonical dictionary: association list sorted by key, unique keys.
`dictInsert` is Python's `d[k] = v`. -/
def dictInsert {α : Type} (k : String) (v : α) : List (String × α) → List (String × α)
  | [] => [(k, v)]
  | (k', v') :: rest =>
    if k = k' then (k, v) :: rest
    else if strLtb k k' then (k, v) :: (k', v') :: rest
    else (k', v') :: dictInsert k v rest

/-- Python's `d.get(k)`. -/
def dictGet? {α : Type} (m : List (String × α)) (k : String) : Option α :=
  (m.find? (fun kv => kv.1 = k)).map (·.2)

/-- Python list `sort()` on strings (ascending code-point order). -/
def pySort (l : List String) : List String :=
  l.insertionSort pyLe

/-- Python's `sorted(list(set(l)))`. -/
def pySortedSet (l : List String) : List String :=
  pySort l.dedup

/-- One XML attribute as seen through `etree.QName`: optional namespace URI,
local name, value. -/
structure XAttr : Type where
  ns : Option String
  ln : String
  val : String
deriving DecidableEq, Repr

mutual
/-- A parsed XML node: an element (namespace, local name, attributes, text,
children) or a non-element node (comment / processing instruction, whose
tag is not a Python `str`). -/
inductive XNode : Type where
  | elem (ns : Option String) (ln : String) (attrs : List XAttr)
      (text : Option String) (children : XNodes)
  | other
inductive XNodes : Type where
  | nil
  | cons (hd : XNode) (tl : XNodes)
end

def XNodes.toList : XNodes → List XNode
  | .nil => []
  | .cons h t => h :: t.toList

def XNodes.ofList : List XNode → XNodes
  | [] => .nil
  | h :: t => .cons h (XNodes.ofList t)

/-- Attributes of a node (non-elements have none). -/
def XNode.attrsL : XNode → List XAttr
  | .elem _ _ a _ _ => a
  | .other => []

/-- Children of a node as a Lean list. -/
def XNode.childrenL : XNode → List XNode
  | .elem _ _ _ _ ch => ch.toList
  | .other => []

/-- `li.text` (non-element nodes are modelled with no text). -/
def XNode.textL : XNode → Option String
  | .elem _ _ _ t _ => t
  | .other => none

def rdfNS : String := "http://www.w3.org/1999/02/22-rdf-syntax-ns#"

def XNode.isRdf (n : XNode) (name : String) : Bool :=
  match n with
  | .elem ns ln _ _ _ => ns = some rdfNS && ln = name
  | .other => false

mutual
/-- `root.find(".//{rdf}Description")`: first descendant (document order)
that is an `rdf:Description` element. -/
def findDescrIn : XNodes → Option XNode
  | .nil => none
  | .cons n tl =>
    match findDescrAt n with
    | some d => some d
    | none => findDescrIn tl
def findDescrAt : XNode → Option XNode
  | .other => none
  | .elem ns ln attrs tx ch =>
    if ns = some rdfNS ∧ ln = "Description" then some (.elem ns ln attrs tx ch)
    else findDescrIn ch
end

/-- `child_node.find(f"{rdf}Seq")`: first direct child element `rdf:Seq`. -/
def findSeq (c : XNode) : Option XNode :=
  c.childrenL.find? (fun n => n.isRdf "Seq")

/-- `child_node.find(f"{rdf}Bag")`. -/
def findBag (c : XNode) : Option XNode :=
  c.childrenL.find? (fun n => n.isRdf "Bag")

-- --- scanner.py: constants and extraction ---

def IGNORED_DT_ATTRS : List String :=
  ["import_timestamp", "export_timestamp", "change_timestamp",
   "print_timestamp", "history_end"]

/-- A value in a history step's module-info dictionary: the darktable
attributes are strings, and the `"masks"` key holds a list of strings. -/
inductive MVal : Type where
  | s (v : String)
  | masks (l : List String)
deriving DecidableEq, Repr

/-- The normalized comparison record (`data` in `extract_darktable_data`). -/
structure SidecarRecord : Type where
  top_level_attrs : List (String × String)
  history : List (String × List (String × MVal))
  tags : List String
deriving DecidableEq, Repr

def emptyRecord : SidecarRecord := ⟨[], [], []⟩

/-- Processing of one description-level attribute (lines 55-70 of
scanner.py).  Both `if` conditions evaluate `"darktable" in qname.namespace`,
which raises `TypeError` for an attribute with no namespace. -/
def procTopAttr (m : List (String × String)) (a : XAttr) :
    Except PyErr (List (String × String)) := do
  let hasDT ← nsHasDT a.ns
  let m := if hasDT ∧ a.ln ∉ IGNORED_DT_ATTRS then dictInsert a.ln a.val m else m
  let m := if hasDT ∧ (a.ln = "history_auto_hash" ∨ a.ln = "history_current_hash")
    then dictInsert a.ln a.val m else m
  pure m

/-- Pure counterpart of `procTopAttr` (equal to it whenever the attribute
has a namespace; used to reason about the fold). -/
def procTopAttrP (m : List (String × String)) (a : XAttr) : List (String × String) :=
  let hasDT := nsHasDTb a.ns
  let m := if hasDT ∧ a.ln ∉ IGNORED_DT_ATTRS then dictInsert a.ln a.val m else m
  if hasDT ∧ (a.ln = "history_auto_hash" ∨ a.ln = "history_current_hash")
    then dictInsert a.ln a.val m else m

/-- Python truthiness of an optional string (`None` and `""` are falsy). -/
def truthy : Option String → Bool
  | none => false
  | some s => s ≠ ""

/-- One step of the mask-history attribute loop (lines 87-95). -/
def maskLiStep (np : Option String × Option String) (a : XAttr) :
    Option String × Option String :=
  let np := if a.ln = "mask_num" then (some a.val, np.2) else np
  if a.ln = "mask_points" then (np.1, some a.val) else np

/-- The attribute scan of one mask-history `rdf:li` (lines 87-95):
last assignment wins for `mask_num` / `mask_points`. -/
def maskLiScan (attrs : List XAttr) : Option String × Option String :=
  attrs.foldl maskLiStep (none, none)

/-- The attribute scan of one history `rdf:li` (lines 107-115): collects
`num` (any namespace, last wins) and the darktable-namespaced attributes.
Raises `TypeError` on an attribute with no namespace. -/
def histLiScan (st : Option String × List (String × MVal)) (a : XAttr) :
    Except PyErr (Option String × List (String × MVal)) := do
  let st := if a.ln = "num" then (some a.val, st.2) else st
  let hasDT ← nsHasDT a.ns
  pure (if hasDT then (st.1, dictInsert a.ln (MVal.s a.val) st.2) else st)

/-- Pure counterpart of `histLiScan`. -/
def histLiScanP (st : Option String × List (String × MVal)) (a : XAttr) :
    Option String × List (String × MVal) :=
  let st := if a.ln = "num" then (some a.val, st.2) else st
  if nsHasDTb a.ns then (st.1, dictInsert a.ln (MVal.s a.val) st.2) else st

/-- Accumulator of the child loop (lines 72-122): `masks_by_num`,
`history_items`, `tags`. -/
structure MState : Type where
  masks_by_num : List (String × List String)
  history_items : List (String × List (String × MVal))
  tags : List String
deriving DecidableEq, Repr

def MState.empty : MState := ⟨[], [], []⟩

/-- `masks_by_num.setdefault(num, []).append(points)` (lines 96-99). -/
def masksAdd (num points : String) (m : List (String × List String)) :
    List (String × List String) :=
  dictInsert num ((dictGet? m num).getD [] ++ [points]) m

/-- Processing of one mask-history `rdf:li`. -/
def procMaskLi (m : List (String × List String)) (li : XNode) :
    List (String × List String) :=
  let np := maskLiScan li.attrsL
  if truthy np.1 ∧ truthy np.2 then masksAdd (np.1.getD "") (np.2.getD "") m else m

/-- Processing of one history `rdf:li` (lines 104-117). -/
def procHistLi (h : List (String × List (String × MVal))) (li : XNode) :
    Except PyErr (List (String × List (String × MVal))) := do
  let st ← li.attrsL.foldlM histLiScan (none, [])
  pure (match st.1 with
    | some num => dictInsert num st.2 h
    | none => h)

def procHistLiP (h : List (String × List (String × MVal))) (li : XNode) :
    List (String × List (String × MVal)) :=
  let st := li.attrsL.foldl histLiScanP (none, [])
  match st.1 with
  | some num => dictInsert num st.2 h
  | none => h

/-- Tag texts contributed by the children of an `rdf:Bag`
(`[li.text for li in bag_node if li.text]`, line 122). -/
def bagTexts (lis : List XNode) : List String :=
  lis.filterMap (fun li =>
    match li.textL with
    | some t => if t ≠ "" then some t else none
    | none => none)

/-- Processing of one child of the description node (lines 74-122). -/
def procChild (st : MState) (n : XNode) : Except PyErr MState :=
  match n with
  | .other => pure st
  | .elem _ ln _ _ _ =>
    if ln = "masks_history" then
      pure (match findSeq n with
        | some seq => { st with masks_by_num := seq.childrenL.foldl procMaskLi st.masks_by_num }
        | none => st)
    else if ln = "history" then do
      match findSeq n with
      | some seq =>
        let h ← seq.childrenL.foldlM procHistLi st.history_items
        pure { st with history_items := h }
      | none => pure st
    else if ln = "subject" then
      pure (match findBag n with
        | some bag => { st with tags := st.tags ++ bagTexts bag.childrenL }
        | none => st)
    else pure st

/-- Pure counterpart of `procChild`. -/
def procChildP (st : MState) (n : XNode) : MState :=
  match n with
  | .other => st
  | .elem _ ln _ _ _ =>
    if ln = "masks_history" then
      match findSeq n with
      | some seq => { st with masks_by_num := seq.childrenL.foldl procMaskLi st.masks_by_num }
      | none => st
    else if ln = "history" then
      match findSeq n with
      | some seq => { st with history_items := seq.childrenL.foldl procHistLiP st.history_items }
      | none => st
    else if ln = "subject" then
      match findBag n with
      | some bag => { st with tags := st.tags ++ bagTexts bag.childrenL }
      | none => st
    else st

/-- Final assembly (lines 124-130): sort each mask list, attach the masks to
each history step under key `"masks"`, sort-deduplicate tags. -/
def assemble (top : List (String × String)) (st : MState) : SidecarRecord :=
  let msorted := st.masks_by_num.map (fun kv => (kv.1, pySort kv.2))
  let hist := st.history_items.foldl
    (fun h kv =>
      dictInsert kv.1 (dictInsert "masks" (MVal.masks ((dictGet? msorted kv.1).getD [])) kv.2) h)
    []
  ⟨top, hist, pySortedSet st.tags⟩

/-- Extraction from a located description element. -/
def procDescription (d : XNode) : Except PyErr SidecarRecord := do
  let top ← d.attrsL.foldlM procTopAttr []
  let st ← d.childrenL.foldlM procChild MState.empty
  pure (assemble top st)

/-- The input to one extraction call: the file was unreadable (`IOError`),
unparseable (`XMLSyntaxError`), or parsed into a root element. -/
inductive FileInput : Type where
  | ioError
  | parseError
  | parsed (root : XNode)

/-- The description node used (line 51-53): first `rdf:Description`
descendant, falling back to the root itself. -/
def descrOf (root : XNode) : XNode :=
  match root with
  | .other => root
  | .elem _ _ _ _ ch => (findDescrIn ch).getD root

/-- `extract_darktable_data` (scanner.py lines 34-130).  The I/O and parse
failures are caught and yield the empty record; a `TypeError` raised by the
namespace checks propagates out of the function. -/
def extract_darktable_data : FileInput → Except PyErr SidecarRecord
  | .ioError => .ok emptyRecord
  | .parseError => .ok emptyRecord
  | .parsed root => procDescription (descrOf root)

-- --- scanner.py: ScannerWorker.run (lines 147-199) ---

/-- One session sidecar found by the walk, with the state of its archive
counterpart and the parse results of both files. -/
structure ScanFile : Type where
  relative_path : String
  archiveExists : Bool
  sessionContent : FileInput
  archiveContent : FileInput

/-- The result of the `os.walk` enumeration: a file list, or an exception. -/
inductive WalkResult : Type where
  | files (fs : List ScanFile)
  | walkError

/-- The observable signals emitted by the scanner worker. -/
inductive ScanSignal : Type where
  | fileDiff (rel : String) (session archive : SidecarRecord)
  | scanProgress (current total : Nat)
  | scanFinished
  | finished
deriving DecidableEq, Repr

/-- The body of one loop iteration for a file (lines 166-191): returns the
emitted diff signals and whether the hash-skip `continue` fired (which also
skips the progress emission).  A per-file exception (including the
extractor's `TypeError`) is caught and yields no diff. -/
def fileStep (f : ScanFile) : List ScanSignal × Bool :=
  if f.archiveExists then
    match extract_darktable_data f.sessionContent with
    | .error _ => ([], false)
    | .ok session_data =>
      let auto_hash := dictGet? session_data.top_level_attrs "history_auto_hash"
      let current_hash := dictGet? session_data.top_level_attrs "history_current_hash"
      if auto_hash.isSome ∧ auto_hash = current_hash then ([], true)
      else
        match extract_darktable_data f.archiveContent with
        | .error _ => ([], false)
        | .ok archive_data =>
          (if session_data ≠ archive_data
            then [.fileDiff f.relative_path session_data archive_data] else [],
           false)
  else ([], false)

/-- The scan loop (lines 162-193).  `running i` is the value of the
cooperative `_is_running` flag as read at the top of iteration `i`. -/
def scanLoop (running : Nat → Bool) (total : Nat) : List ScanFile → Nat → List ScanSignal
  | [], _ => []
  | f :: rest, i =>
    if running i then
      (fileStep f).1 ++ (if (fileStep f).2 then [] else [.scanProgress (i + 1) total])
        ++ scanLoop running total rest (i + 1)
    else []

/-- `ScannerWorker.run` (lines 147-199). -/
def scannerRun (w : WalkResult) (running : Nat → Bool) : List ScanSignal :=
  match w with
  | .walkError => [.scanFinished, .finished]
  | .files fs => scanLoop running fs.length fs 0 ++ [.scanFinished, .finished]

-- --- preview_cache_manager.py / preview.py ---

/-- A render job dictionary (preview_cache_manager.py lines 194-231). -/
structure Job : Type where
  relative_path : String
  raw_file : String
  xmp_file : String
  image_type : String
  history_hash : Option String
deriving DecidableEq, Repr

/-- A model of Python's built-in `hash()` of a path string, used as the
cache-key fallback (`str(hash(xmp_file))`); its exact values never matter,
only that it is a function of the path. -/
def pyPathHash (s : String) : String := "pyhash:" ++ s

/-- The `hash_part` of a cache filename (lines 254-258 / preview.py 590-594):
`history_hash` if truthy, else the path hash. -/
def hashPart (history_hash : Option String) (xmp_file : String) : String :=
  if truthy history_hash then (history_hash.getD "") else pyPathHash xmp_file

def cacheRoot : String := "~/.cache/dtsync"

/-- The cache filename for a job. -/
def cacheFileName (history_hash : Option String) (xmp_file image_type : String) : String :=
  hashPart history_hash xmp_file ++ "_" ++ image_type ++ ".jpg"

/-- The state of `PreviewCacheManager`, together with a model of the on-disk
cache: for each dimension whose directory exists, the list of
(filename, size) entries. -/
structure MgrState : Type where
  darktable_cli_path : String
  preview_max_dimension : Nat
  max_threads : Nat
  enable_opencl : Bool
  hasSignals : Bool
  pending_jobs : List Job
  active_jobs : List (String × String)
  cacheFS : List (Nat × List (String × Nat))
deriving DecidableEq, Repr

/-- Directory listing of `<cache_root>/<dim>` (none if the directory does
not exist). -/
def dirOf (st : MgrState) (dim : Nat) : Option (List (String × Nat)) :=
  (st.cacheFS.find? (fun kv => kv.1 = dim)).map (·.2)

/-- `clear_cache_for_dimension` (lines 88-96): `shutil.rmtree` of that
dimension's directory. -/
def clear_cache_for_dimension (st : MgrState) (dimension : Nat) : MgrState :=
  { st with cacheFS := st.cacheFS.filter (fun kv => kv.1 ≠ dimension) }

/-- `update_settings` (lines 67-86).  `settings_changed` is computed before
the assignments, but the dimension-change test compares
`self.preview_max_dimension` *after* it has been assigned the new value. -/
def update_settings (st : MgrState) (darktable_cli_path : String)
    (preview_max_dimension max_threads : Nat) (enable_opencl : Bool) : MgrState :=
  let settings_changed :=
    st.darktable_cli_path ≠ darktable_cli_path ∨
    st.preview_max_dimension ≠ preview_max_dimension ∨
    st.max_threads ≠ max_threads ∨
    st.enable_opencl ≠ enable_opencl
  let st := { st with
    darktable_cli_path := darktable_cli_path,
    preview_max_dimension := preview_max_dimension,
    max_threads := max_threads,
    enable_opencl := enable_opencl }
  if settings_changed ∧ st.preview_max_dimension ≠ preview_max_dimension then
    clear_cache_for_dimension st st.preview_max_dimension
  else st

/-- `_preview_exists` (lines 354-365): the cache file exists and has
non-zero size. -/
def previewExists (st : MgrState) (job : Job) : Bool :=
  match dirOf st st.preview_max_dimension with
  | none => false
  | some files =>
    match files.find? (fun fe => fe.1 = cacheFileName job.history_hash job.xmp_file job.image_type) with
    | none => false
    | some fe => fe.2 > 0

/-- `_is_preview_cached` (lines 241-249). -/
def isPreviewCached (st : MgrState) (relative_path image_type : String)
    (history_hash : Option String) (xmp_file : String) : Bool :=
  previewExists st
    { relative_path := relative_path, raw_file := "", xmp_file := xmp_file,
      image_type := image_type, history_hash := history_hash }

/-- `_get_cache_path` (lines 251-260). -/
def getCachePath (st : MgrState) (history_hash : Option String)
    (xmp_file image_type : String) : String :=
  cacheRoot ++ "/" ++ toString st.preview_max_dimension ++ "/"
    ++ cacheFileName history_hash xmp_file image_type

/-- `is_job_scheduled` (lines 367-380). -/
def is_job_scheduled (st : MgrState) (rel_path image_type : String) : Bool :=
  (rel_path, image_type) ∈ st.active_jobs ||
    st.pending_jobs.any (fun j => j.relative_path = rel_path && j.image_type = image_type)

/-- Observable actions of the cache manager. -/
inductive MSig : Type where
  | previewReady (rel image_type path : String)
  | startWorker (job : Job) (retry_count max_retries dim : Nat) (opencl : Bool)
deriving DecidableEq, Repr

/-- Python dict insertion of a job key into `active_jobs` (keys only). -/
def activeInsert (k : String × String) (l : List (String × String)) :
    List (String × String) :=
  if k ∈ l then l else l ++ [k]

/-- The `while` loop of `process_pending_jobs` (lines 390-416): start jobs
from the front of the queue while below the thread limit; each start
constructs a `PreviewWorker` with `retry_count=0, max_retries=2`. -/
def processLoop (st : MgrState) : List Job → List (String × String) →
    List Job × List (String × String) × List MSig
  | [], active => ([], active, [])
  | j :: rest, active =>
    if active.length < st.max_threads then
      let r := processLoop st rest (activeInsert (j.relative_path, j.image_type) active)
      (r.1, r.2.1, .startWorker j 0 2 st.preview_max_dimension st.enable_opencl :: r.2.2)
    else (j :: rest, active, [])

/-- `process_pending_jobs` (lines 382-416). -/
def process_pending_jobs (st : MgrState) : MgrState × List MSig :=
  let (p, a, sigs) := processLoop st st.pending_jobs st.active_jobs
  ({ st with pending_jobs := p, active_jobs := a }, sigs)

/-- `request_single_preview_generation` (lines 209-239). -/
def request_single_preview_generation (st : MgrState)
    (relative_path raw_file xmp_path image_type : String)
    (history_hash : Option String) : MgrState × List MSig :=
  if st.darktable_cli_path = "" then (st, [])
  else if isPreviewCached st relative_path image_type history_hash xmp_path then
    (st,
     if st.hasSignals then
       [.previewReady relative_path image_type
          (getCachePath st history_hash xmp_path image_type)]
     else [])
  else if is_job_scheduled st relative_path image_type then (st, [])
  else
    let job : Job :=
      { relative_path := relative_path, raw_file := raw_file, xmp_file := xmp_path,
        image_type := image_type, history_hash := history_hash }
    process_pending_jobs { st with pending_jobs := job :: st.pending_jobs }

-- --- preview.py: PreviewWorker.run (lines 578-700) ---

/-- The outcome of the `darktable-cli` subprocess for one attempt. -/
inductive RenderOutcome : Type where
  | exitZero
  | exitNonzero
  | timeout
deriving DecidableEq, Repr

/-- The environment of one `PreviewWorker.run` call: the cancellation flag
as read at each of its four checkpoints (line 580, line 605, line 646 inside
the `try` block, and the post-run checks), whether a valid cached output
already exists (line 600), the subprocess outcome, and whether the output
file exists with non-zero size afterwards (line 670). -/
structure RunEnv : Type where
  cancelled1 : Bool
  cacheValid : Bool
  cancelled2 : Bool
  cancelled3 : Bool
  outcome : RenderOutcome
  outputValid : Bool
  cancelled4 : Bool
deriving DecidableEq, Repr

/-- Worker signals (`PreviewSignals`), plus the renderer invocation itself
and the retry delay performed by `on_preview_retry_requested`. -/
inductive WSig : Type where
  | invokeRenderer
  | previewReady
  | previewFailed
  | retryRequested (next_retry_count : Nat)
  | delayMs (ms : Nat)
  | jobFinished
deriving DecidableEq, Repr

/-- `_handle_preview_failure` (lines 702-726): retry with `retry_count+1`
while below `max_retries`, else emit the terminal `preview_failed`. -/
def handlePreviewFailure (retry_count max_retries : Nat) : List WSig :=
  if retry_count < max_retries then [.retryRequested (retry_count + 1)]
  else [.previewFailed]

/-- `PreviewWorker.run` (lines 578-700) as the list of emitted signals plus
whether a retry was requested.  The third cancellation checkpoint sits
inside the `try` block, so its early `return` still runs the `finally`
clause: `job_finished` is emitted a second time on that path. -/
def workerRun (env : RunEnv) (retry_count max_retries : Nat) : List WSig × Bool :=
  if env.cancelled1 then ([.jobFinished], false)
  else if env.cacheValid then ([.previewReady, .jobFinished], false)
  else if env.cancelled2 then ([.jobFinished], false)
  else
    let trySigs :=
      if env.cancelled3 then [.jobFinished]
      else
        .invokeRenderer ::
        match env.outcome with
        | .timeout => if env.cancelled4 then [] else handlePreviewFailure retry_count max_retries
        | .exitNonzero => if env.cancelled4 then [] else handlePreviewFailure retry_count max_retries
        | .exitZero =>
          if env.outputValid then (if env.cancelled4 then [] else [.previewReady])
          else (if env.cancelled4 then [] else handlePreviewFailure retry_count max_retries)
    (trySigs ++ [.jobFinished],
     trySigs.any (fun s => match s with | .retryRequested _ => true | _ => false))

/-- The retry chain: `on_preview_retry_requested` (cache manager lines
423-429) waits 1000 ms and restarts the retry worker constructed with
`retry_count+1`.  The countdown argument equals `max_retries - retry_count`;
an attempt at `retry_count ≥ max_retries` never requests a retry, so the
truncation at zero never cuts off a real retry. -/
def retryChainAux (envs : Nat → RunEnv) (max_retries : Nat) :
    Nat → Nat → List WSig
  | 0, rc => (workerRun (envs rc) rc max_retries).1
  | k + 1, rc =>
    let (sigs, retry) := workerRun (envs rc) rc max_retries
    if retry then sigs ++ .delayMs 1000 :: retryChainAux envs max_retries k (rc + 1)
    else sigs

/-- The full signal trace of a job started with `retry_count=0`, following
retries to completion. -/
def retryChain (envs : Nat → RunEnv) (max_retries : Nat) : List WSig :=
  retryChainAux envs max_retries max_retries 0

-- --- Supporting definitions for the individual claims ---

/-- The darktable namespace URI as written by darktable sidecars. -/
def dtNS : String := "http://darktable.sf.net/"

/-- A file in the session tree whose extraction raises: its root element
(used as the description fallback) carries an attribute with no XML
namespace, so `"darktable" in qname.namespace` is `"darktable" in None`. -/
def badRoot : XNode := .elem none "a" [⟨none, "foo", "1"⟩] none .nil

/-- A manager state at dimension 800 with one valid cached preview. -/
def st800 : MgrState :=
  { darktable_cli_path := "dt", preview_max_dimension := 800, max_threads := 4,
    enable_opencl := true, hasSignals := true, pending_jobs := [], active_jobs := [],
    cacheFS := [(800, [("abc_session.jpg", 100)])] }

/-- The job whose preview is cached in `st800`. -/
def jobAbc : Job :=
  { relative_path := "p.xmp", raw_file := "p.nef", xmp_file := "x",
    image_type := "session", history_hash := some "abc" }

/-- A manager state with an empty cache and no jobs. -/
def stEmpty : MgrState :=
  { darktable_cli_path := "dt", preview_max_dimension := 800, max_threads := 4,
    enable_opencl := true, hasSignals := true, pending_jobs := [], active_jobs := [],
    cacheFS := [] }

/-- Does a manager signal start a render for the given key? -/
def isStartFor (rel ity : String) : MSig → Bool
  | .startWorker j _ _ _ _ => j.relative_path = rel && j.image_type = ity
  | _ => false

/-- Number of pending jobs for a (file, side) key. -/
def pendWith (rel ity : String) (pend : List Job) : Nat :=
  (pend.filter (fun q => q.relative_path = rel && q.image_type = ity)).length

/-- Number of active jobs (0 or 1) for a (file, side) key. -/
def activeWith (rel ity : String) (act : List (String × String)) : Nat :=
  if (rel, ity) ∈ act then 1 else 0

/-- Number of jobs for a (file, side) key in the pending queue plus the
active set. -/
def jobKeyCount (st : MgrState) (rel ity : String) : Nat :=
  pendWith rel ity st.pending_jobs + activeWith rel ity st.active_jobs

/-- Number of render starts for a key among manager signals. -/
def startCount (rel ity : String) (s : List MSig) : Nat :=
  (s.filter (isStartFor rel ity)).length

/-- Is a worker signal a retry delay? -/
def isDelay : WSig → Bool
  | .delayMs _ => true
  | _ => false

/-- An attempt environment on which the render fails: not cancelled, no
valid cache entry, and the renderer exits non-zero, times out, or exits
zero without producing bytes. -/
def alwaysFails (e : RunEnv) : Prop :=
  e.cancelled1 = false ∧ e.cacheValid = false ∧ e.cancelled2 = false ∧
  e.cancelled3 = false ∧ e.cancelled4 = false ∧
  (e.outcome = .exitNonzero ∨ e.outcome = .timeout ∨
    (e.outcome = .exitZero ∧ e.outputValid = false))

/-- The session sidecar's extracted record has `history_auto_hash` present
and equal to `history_current_hash` (the scanner's skip heuristic). -/
def hashesMatch (f : ScanFile) : Prop :=
  ∃ sd, extract_darktable_data f.sessionContent = .ok sd ∧
    (dictGet? sd.top_level_attrs "history_auto_hash").isSome = true ∧
    dictGet? sd.top_level_attrs "history_auto_hash"
      = dictGet? sd.top_level_attrs "history_current_hash"

/-- A run environment in which cancellation is first observed at the
checkpoint inside the `try` block (preview.py line 646). -/
def cancelInsideTryEnv : RunEnv :=
  { cancelled1 := false, cacheValid := false, cancelled2 := false,
    cancelled3 := true, outcome := .exitZero, outputValid := false,
    cancelled4 := false }

/-- An attempt environment in which the renderer exits 0 but writes no
bytes (the empty-output failure mode). -/
def failEnv : RunEnv :=
  { cancelled1 := false, cacheValid := false, cancelled2 := false,
    cancelled3 := false, outcome := .exitZero, outputValid := false,
    cancelled4 := false }

/-- A session sidecar whose root (description fallback) carries equal
`history_auto_hash` and `history_current_hash`. -/
def skipRoot : XNode :=
  .elem none "x"
    [⟨some dtNS, "history_auto_hash", "abc"⟩,
     ⟨some dtNS, "history_current_hash", "abc"⟩]
    none .nil

/-- An archive sidecar extracting to a non-empty record. -/
def archRoot : XNode :=
  .elem none "x" [⟨some dtNS, "history_current_hash", "zzz"⟩] none .nil

/-- A scan file whose session and archive copies differ but whose session
hashes match (used to witness the skip). -/
def skipFile : ScanFile :=
  { relative_path := "p.xmp", archiveExists := true,
    sessionContent := .parsed skipRoot, archiveContent := .parsed archRoot }

/-- A scan file whose session copy is unreadable and whose archive copy is
non-empty (used to witness C10). -/
def brokenSessionFile : ScanFile :=
  { relative_path := "q.xmp", archiveExists := true,
    sessionContent := .ioError, archiveContent := .parsed archRoot }

-- --- Supporting definitions for claim C2 ---

/-- Attributes that `extract_darktable_data` keeps in `top_level_attrs`:
darktable-namespaced and not blacklisted (the hash attributes are not in
the blacklist, so the separate hash override never adds anything new). -/
def keptB (a : XAttr) : Bool :=
  nsHasDTb a.ns && !(decide (a.ln ∈ IGNORED_DT_ATTRS))

/-- The volatile blacklisted attributes: darktable-namespaced with a
blacklisted local name. -/
def volatileB (a : XAttr) : Bool :=
  nsHasDTb a.ns && decide (a.ln ∈ IGNORED_DT_ATTRS)

/-- The kept description attributes as (localname, value) pairs, in
document order. -/
def topPairs (l : List XAttr) : List (String × String) :=
  (l.filter keptB).map (fun a => (a.ln, a.val))

/-- Left-biased choice on options: the first if present, else the
second. -/
def oOr {α : Type} (o d : Option α) : Option α :=
  match o with
  | some v => some v
  | none => d

/-- Value of the last attribute with the given local name (used to
characterize Python's last-assignment-wins attribute scans). -/
def lastAttrVal (nm : String) : List XAttr → Option String
  | [] => none
  | a :: rest =>
    match lastAttrVal nm rest with
    | some v => some v
    | none => if a.ln = nm then some a.val else none

/-- Value of the last pair with the given key. -/
def lastVal {α : Type} (k : String) : List (String × α) → Option α
  | [] => none
  | kv :: rest =>
    match lastVal k rest with
    | some v => some v
    | none => if kv.1 = k then some kv.2 else none

/-- The darktable-namespaced attributes of a history step as module-info
pairs, in document order. -/
def dtPairs (l : List XAttr) : List (String × MVal) :=
  (l.filter (fun a => nsHasDTb a.ns)).map (fun a => (a.ln, MVal.s a.val))

/-- The (mask_num, mask_points) pair contributed by one mask-history li. -/
def liMaskPair (li : XNode) : Option (String × String) :=
  let np := maskLiScan li.attrsL
  if truthy np.1 ∧ truthy np.2 then some (np.1.getD "", np.2.getD "") else none

/-- The (num, module_info) pair contributed by one history li. -/
def liHistPair (li : XNode) : Option (String × List (String × MVal)) :=
  let st := li.attrsL.foldl histLiScanP (none, [])
  st.1.map (fun num => (num, st.2))

/-- (num, points) contributions of one description child. -/
def maskContribs (c : XNode) : List (String × String) :=
  match c with
  | .other => []
  | .elem _ ln _ _ _ =>
    if ln = "masks_history" then
      match findSeq c with
      | some seq => seq.childrenL.filterMap liMaskPair
      | none => []
    else []

/-- (num, module_info) contributions of one description child. -/
def histContribs (c : XNode) : List (String × List (String × MVal)) :=
  match c with
  | .other => []
  | .elem _ ln _ _ _ =>
    if ln = "masks_history" then []
    else if ln = "history" then
      match findSeq c with
      | some seq => seq.childrenL.filterMap liHistPair
      | none => []
    else []

/-- Tag contributions of one description child. -/
def tagContribs (c : XNode) : List String :=
  match c with
  | .other => []
  | .elem _ ln _ _ _ =>
    if ln = "masks_history" then []
    else if ln = "history" then []
    else if ln = "subject" then
      match findBag c with
      | some bag => bagTexts bag.childrenL
      | none => []
    else []

/-- Count of attributes with a given local name. -/
def attrNameCount (nm : String) (l : List XAttr) : Nat :=
  (l.filter (fun a => a.ln = nm)).length

/-- Well-formedness of one li element for the extraction scans: all
attribute namespaces present (so the darktable test cannot raise), the
darktable local names unique, and the name-keyed scans unambiguous. -/
def LiWF (li : XNode) : Prop :=
  (∀ a ∈ li.attrsL, a.ns.isSome = true) ∧
  ((li.attrsL.filter (fun a => nsHasDTb a.ns)).map XAttr.ln).Nodup ∧
  attrNameCount "num" li.attrsL ≤ 1 ∧
  attrNameCount "mask_num" li.attrsL ≤ 1 ∧
  attrNameCount "mask_points" li.attrsL ≤ 1

/-- The li children examined by a description child (its first `rdf:Seq`,
when it is a mask or edit history container). -/
def seqLis (c : XNode) : List XNode :=
  match findSeq c with
  | some seq => seq.childrenL
  | none => []

/-- Well-formedness of a description element: all description attributes
namespaced, the kept local names unique, every history/mask li well-formed,
and the history step numbers globally unique. -/
def DescrWF (d : XNode) : Prop :=
  (∀ a ∈ d.attrsL, a.ns.isSome = true) ∧
  ((d.attrsL.filter keptB).map XAttr.ln).Nodup ∧
  (∀ c ∈ d.childrenL, ∀ li ∈ seqLis c, LiWF li) ∧
  ((d.childrenL.flatMap histContribs).map Prod.fst).Nodup

/-- The two description elements differ only in the volatile blacklisted
darktable attributes: the non-volatile attribute lists (in order) and the
children are identical. -/
def VolatileOnly (d1 d2 : XNode) : Prop :=
  d1.attrsL.filter (fun a => !volatileB a) = d2.attrsL.filter (fun a => !volatileB a) ∧
  d1.childrenL = d2.childrenL

/-- Two li elements that differ only in attribute order. -/
def LiEquiv : XNode → XNode → Prop
  | .other, .other => True
  | .elem ns1 ln1 a1 t1 c1, .elem ns2 ln2 a2 t2 c2 =>
    ns1 = ns2 ∧ ln1 = ln2 ∧ t1 = t2 ∧ a1.Perm a2 ∧ c1 = c2
  | _, _ => False

/-- Permutation of lists up to a relation on elements. -/
def RelPerm {α : Type} (R : α → α → Prop) (l1 l2 : List α) : Prop :=
  ∃ l, List.Forall₂ R l1 l ∧ l.Perm l2

/-- Two `rdf:Seq` / `rdf:Bag` level nodes that agree except that their li
children may be reordered and each li's attributes may be reordered. -/
def SubEquiv : XNode → XNode → Prop
  | .other, .other => True
  | .elem ns1 ln1 a1 t1 c1, .elem ns2 ln2 a2 t2 c2 =>
    ns1 = ns2 ∧ ln1 = ln2 ∧ t1 = t2 ∧ a1.Perm a2 ∧
      RelPerm LiEquiv c1.toList c2.toList
  | _, _ => False

/-- Two description children that agree except for attribute order and the
orderings below them (their own child sequence keeps its order, so the
first-Seq/first-Bag selection is unaffected). -/
def ChildEquiv : XNode → XNode → Prop
  | .other, .other => True
  | .elem ns1 ln1 a1 t1 c1, .elem ns2 ln2 a2 t2 c2 =>
    ns1 = ns2 ∧ ln1 = ln2 ∧ t1 = t2 ∧ a1.Perm a2 ∧
      List.Forall₂ SubEquiv c1.toList c2.toList
  | _, _ => False

/-- The two description elements differ only in ordering: attribute order,
order of the child elements, order of li elements inside Seq/Bag
containers, and attribute order on the li elements. -/
def OrderOnly (d1 d2 : XNode) : Prop :=
  d1.attrsL.Perm d2.attrsL ∧ RelPerm ChildEquiv d1.childrenL d2.childrenL

/-- Folding plain dictionary insertions over a pair list. -/
def pairsFold {α : Type} (m0 : List (String × α)) (l : List (String × α)) :
    List (String × α) :=
  l.foldl (fun m kv => dictInsert kv.1 kv.2 m) m0

/-- Folding mask-point accumulation over (num, points) pairs. -/
def mfold (m0 : List (String × List String)) (pairs : List (String × String)) :
    List (String × List String) :=
  pairs.foldl (fun m np => masksAdd np.1 np.2 m) m0

/-- Sortedness invariant of the canonical dictionaries: keys strictly
ascending. -/
def dictWF {α : Type} (m : List (String × α)) : Prop :=
  m.Pairwise (fun x y => strLtb x.1 y.1 = true)

/-- The record extracted from `archRoot`. -/
def archRecord : SidecarRecord :=
  ⟨[("history_current_hash", "zzz")], [], []⟩

/-- Two darktable attributes used to build a concrete reordered sidecar
pair. -/
def c2a1 : XAttr := ⟨some "http://darktable.sf.net/", "rating", "5"⟩

def c2a2 : XAttr := ⟨some "http://darktable.sf.net/", "colorlabels", "1"⟩

/-- A root element carrying the two attributes in document order, and the
same root with the attributes swapped. -/
def c2d1 : XNode := .elem none "x" [c2a1, c2a2] none .nil

def c2d2 : XNode := .elem none "x" [c2a2, c2a1] none .nil

-- ===================================================================
-- Theorems
-- ===================================================================

-- --- The string order used by the canonical dictionaries and sorts ---

theorem charListLt_irrefl : ∀ l, charListLt l l = false
  | [] => rfl
  | a :: as => by
    rw [charListLt, if_neg (lt_irrefl a), if_neg (lt_irrefl a)]
    exact charListLt_irrefl as

theorem charListLt_asymm : ∀ l1 l2, charListLt l1 l2 = true → charListLt l2 l1 = false
  | _, [], h => by rw [charListLt] at h; cases h
  | [], _ :: _, _ => rfl
  | a :: as, b :: bs, h => by
    rw [charListLt] at h ⊢
    rcases lt_trichotomy a b with hab | hab | hab
    · rw [if_neg (lt_asymm hab), if_pos hab]
    · subst hab
      rw [if_neg (lt_irrefl a), if_neg (lt_irrefl a)] at h ⊢
      exact charListLt_asymm as bs h
    · rw [if_neg (lt_asymm hab), if_pos hab] at h
      cases h

theorem charListLt_eq_of : ∀ l1 l2, charListLt l1 l2 = false →
    charListLt l2 l1 = false → l1 = l2
  | [], [], _, _ => rfl
  | [], _ :: _, h, _ => by rw [charListLt] at h; cases h
  | _ :: _, [], _, h' => by rw [charListLt] at h'; cases h'
  | a :: as, b :: bs, h, h' => by
    rw [charListLt] at h h'
    rcases lt_trichotomy a b with hab | hab | hab
    · rw [if_pos hab] at h; cases h
    · subst hab
      rw [if_neg (lt_irrefl a), if_neg (lt_irrefl a)] at h h'
      rw [charListLt_eq_of as bs h h']
    · rw [if_pos hab] at h'; cases h'

theorem charListLt_trans : ∀ l1 l2 l3, charListLt l1 l2 = true →
    charListLt l2 l3 = true → charListLt l1 l3 = true
  | _, _, [], _, h2 => by rw [charListLt] at h2; cases h2
  | _, [], _ :: _, h1, _ => by rw [charListLt] at h1; cases h1
  | [], _ :: _, _ :: _, _, _ => rfl
  | a :: as, b :: bs, c :: cs, h1, h2 => by
    rw [charListLt] at h1 h2 ⊢
    rcases lt_trichotomy a b with hab | hab | hab
    · rcases lt_trichotomy b c with hbc | hbc | hbc
      · rw [if_pos (lt_trans hab hbc)]
      · subst hbc; rw [if_pos hab]
      · rw [if_neg (lt_asymm hbc), if_pos hbc] at h2; cases h2
    · subst hab
      rcases lt_trichotomy a c with hbc | hbc | hbc
      · rw [if_pos hbc]
      · subst hbc
        rw [if_neg (lt_irrefl a), if_neg (lt_irrefl a)] at h1 h2 ⊢
        exact charListLt_trans as bs cs h1 h2
      · rw [if_neg (lt_asymm hbc), if_pos hbc] at h2; cases h2
    · rw [if_neg (lt_asymm hab), if_pos hab] at h1; cases h1

theorem strLtb_irrefl (a : String) : strLtb a a = false :=
  charListLt_irrefl a.toList

theorem strLtb_asymm {a b : String} (h : strLtb a b = true) : strLtb b a = false :=
  charListLt_asymm a.toList b.toList h

theorem strLtb_eq_of {a b : String} (h : strLtb a b = false)
    (h' : strLtb b a = false) : a = b :=
  String.toList_inj.mp (charListLt_eq_of a.toList b.toList h h')

theorem strLtb_trans {a b c : String} (h1 : strLtb a b = true)
    (h2 : strLtb b c = true) : strLtb a c = true :=
  charListLt_trans a.toList b.toList c.toList h1 h2

theorem pyLe_total : ∀ a b : String, pyLe a b ∨ pyLe b a := by
  intro a b
  unfold pyLe
  cases h1 : strLtb b a with
  | false => exact .inl rfl
  | true => exact .inr (strLtb_asymm h1)

theorem pyLe_trans : ∀ a b c : String, pyLe a b → pyLe b c → pyLe a c := by
  intro a b c h1 h2
  unfold pyLe at h1 h2 ⊢
  cases hca : strLtb c a with
  | false => rfl
  | true =>
    exfalso
    cases hbc : strLtb b c with
    | true => exact absurd (strLtb_trans hbc hca) (by rw [h1]; simp)
    | false =>
      have hcb : c = b := strLtb_eq_of h2 hbc
      rw [hcb] at hca
      exact absurd hca (by rw [h1]; simp)

theorem pyLe_antisymm : ∀ a b : String, pyLe a b → pyLe b a → a = b := by
  intro a b h1 h2
  exact strLtb_eq_of h2 h1

/-- Sorting is invariant under permutation of the input. -/
theorem pySort_congr {l1 l2 : List String} (h : l1.Perm l2) :
    pySort l1 = pySort l2 := by
  haveI : IsTotal String pyLe := ⟨pyLe_total⟩
  haveI : IsTrans String pyLe := ⟨pyLe_trans⟩
  haveI : IsAntisymm String pyLe := ⟨pyLe_antisymm⟩
  exact List.eq_of_perm_of_sorted
    ((List.perm_insertionSort pyLe l1).trans (h.trans (List.perm_insertionSort pyLe l2).symm))
    (List.sorted_insertionSort pyLe l1) (List.sorted_insertionSort pyLe l2)

/-- `sorted(list(set(l)))` is invariant under permutation of the input. -/
theorem pySortedSet_congr {l1 l2 : List String} (h : l1.Perm l2) :
    pySortedSet l1 = pySortedSet l2 :=
  pySort_congr h.dedup

-- --- Canonical dictionary lemmas ---

theorem dictGet?_insert {α : Type} (k k' : String) (v : α) :
    ∀ m : List (String × α),
      dictGet? (dictInsert k v m) k' = if k' = k then some v else dictGet? m k'
  | [] => by
    by_cases h : k' = k
    · subst h; simp [dictInsert, dictGet?, List.find?_cons]
    · simp [dictInsert, dictGet?, List.find?_cons, h, Ne.symm h]
  | (k0, v0) :: rest => by
    by_cases h0 : k = k0
    · subst h0
      rw [dictInsert, if_pos rfl]
      by_cases h : k' = k
      · subst h; simp [dictGet?, List.find?_cons]
      · simp [dictGet?, List.find?_cons, h, Ne.symm h]
    · rw [dictInsert, if_neg h0]
      by_cases hlt : strLtb k k0 = true
      · rw [if_pos hlt]
        by_cases h : k' = k
        · subst h; simp [dictGet?, List.find?_cons, Ne.symm h0]
        · simp [dictGet?, List.find?_cons, h, Ne.symm h]
      · rw [if_neg hlt]
        by_cases h : k' = k0
        · subst h
          simp [dictGet?, List.find?_cons, Ne.symm h0]
        · have ih := dictGet?_insert k k' v rest
          simp only [dictGet?, List.find?_cons] at ih ⊢
          simp only [show (decide (k0 = k') = false) from by simp [Ne.symm h]]
          exact ih

theorem mem_dictInsert {α : Type} (k : String) (v : α) (y : String × α) :
    ∀ m : List (String × α), y ∈ dictInsert k v m → y = (k, v) ∨ y ∈ m
  | [] => by simp [dictInsert]
  | (k0, v0) :: rest => by
    intro hy
    rw [dictInsert] at hy
    split at hy
    · rcases List.mem_cons.mp hy with rfl | hy
      · exact .inl rfl
      · exact .inr (List.mem_cons_of_mem _ hy)
    · split at hy
      · rcases List.mem_cons.mp hy with rfl | hy
        · exact .inl rfl
        · exact .inr hy
      · rcases List.mem_cons.mp hy with rfl | hy
        · exact .inr (List.mem_cons_self _ _)
        · rcases mem_dictInsert k v y rest hy with h | h
          · exact .inl h
          · exact .inr (List.mem_cons_of_mem _ h)

theorem dictWF_insert {α : Type} (k : String) (v : α) :
    ∀ m : List (String × α), dictWF m → dictWF (dictInsert k v m)
  | [], _ => by simp [dictInsert, dictWF]
  | (k0, v0) :: rest, hwf => by
    rw [dictWF, List.pairwise_cons] at hwf
    obtain ⟨hall, hrest⟩ := hwf
    rw [dictInsert]
    by_cases h0 : k = k0
    · subst h0
      rw [if_pos rfl, dictWF, List.pairwise_cons]
      exact ⟨hall, hrest⟩
    · rw [if_neg h0]
      by_cases hlt : strLtb k k0 = true
      · rw [if_pos hlt, dictWF, List.pairwise_cons]
        refine ⟨?_, List.pairwise_cons.mpr ⟨hall, hrest⟩⟩
        intro y hy
        rcases List.mem_cons.mp hy with rfl | hy
        · exact hlt
        · exact strLtb_trans hlt (hall y hy)
      · rw [if_neg hlt, dictWF, List.pairwise_cons]
        have hgt : strLtb k0 k = true := by
          cases hkk : strLtb k0 k with
          | true => rfl
          | false =>
            exact absurd (strLtb_eq_of (Bool.not_eq_true _ ▸ hlt : strLtb k k0 = false) hkk) h0
        refine ⟨?_, dictWF_insert k v rest hrest⟩
        intro y hy
        rcases mem_dictInsert k v y rest hy with rfl | hy
        · exact hgt
        · exact hall y hy

theorem dictGet?_head_skip {α : Type} (k k0 : String) (v0 : α)
    (r : List (String × α)) (h : ¬ k = k0) :
    dictGet? ((k0, v0) :: r) k = dictGet? r k := by
  simp [dictGet?, List.find?_cons, Ne.symm h]

theorem dictGet?_none_of_lt {α : Type} (k : String) :
    ∀ r : List (String × α), (∀ y ∈ r, strLtb k y.1 = true) → dictGet? r k = none := by
  intro r hall
  unfold dictGet?
  rw [List.find?_eq_none.mpr]
  · rfl
  · intro y hy
    simp only [decide_eq_true_eq]
    intro hk
    have := hall y hy
    rw [hk] at this
    exact absurd this (by rw [strLtb_irrefl]; simp)

theorem dictGet?_mem {α : Type} {m : List (String × α)} {k : String} {v : α}
    (h : dictGet? m k = some v) : (k, v) ∈ m := by
  unfold dictGet? at h
  cases hf : m.find? (fun kv => kv.1 = k) with
  | none => rw [hf] at h; cases h
  | some kv =>
    rw [hf] at h
    have hp := List.find?_some hf
    have hm := List.mem_of_find?_eq_some hf
    simp only [decide_eq_true_eq] at hp
    simp only [Option.map_some'] at h
    cases h
    rw [← hp]
    exact hm

theorem dict_ext {α : Type} :
    ∀ m1 m2 : List (String × α), dictWF m1 → dictWF m2 →
      (∀ k, dictGet? m1 k = dictGet? m2 k) → m1 = m2
  | [], [], _, _, _ => rfl
  | [], (k2, v2) :: r2, _, _, h => by
    have := h k2
    simp [dictGet?, List.find?_cons] at this
  | (k1, v1) :: r1, [], _, _, h => by
    have := h k1
    simp [dictGet?, List.find?_cons] at this
  | (k1, v1) :: r1, (k2, v2) :: r2, hw1, hw2, h => by
    rw [dictWF, List.pairwise_cons] at hw1 hw2
    obtain ⟨hall1, hr1⟩ := hw1
    obtain ⟨hall2, hr2⟩ := hw2
    have hget1 : dictGet? ((k1, v1) :: r1) k1 = some v1 := by
      simp [dictGet?, List.find?_cons]
    have hget2 : dictGet? ((k2, v2) :: r2) k2 = some v2 := by
      simp [dictGet?, List.find?_cons]
    have hk : k1 = k2 := by
      by_contra hne
      have h1 := (h k1).symm
      rw [hget1] at h1
      have hmem1 := dictGet?_mem h1
      rcases List.mem_cons.mp hmem1 with he | hmem1
      · exact hne (congrArg Prod.fst he)
      · have hlt21 := hall2 _ hmem1
        have h2 := h k2
        rw [hget2] at h2
        have hmem2 := dictGet?_mem h2
        rcases List.mem_cons.mp hmem2 with he | hmem2
        · exact hne (congrArg Prod.fst he).symm
        · have hlt12 := hall1 _ hmem2
          rw [strLtb_asymm hlt12] at hlt21
          cases hlt21
    subst hk
    have hv : v1 = v2 := by
      have := h k1
      rw [hget1, hget2] at this
      cases this
      rfl
    subst hv
    have htails : ∀ k, dictGet? r1 k = dictGet? r2 k := by
      intro k
      by_cases hk1 : k = k1
      · subst hk1
        rw [dictGet?_none_of_lt k r1 (fun y hy => hall1 y hy),
          dictGet?_none_of_lt k r2 (fun y hy => hall2 y hy)]
      · have := h k
        rw [dictGet?_head_skip k k1 v1 r1 hk1, dictGet?_head_skip k k1 v1 r2 hk1] at this
        exact this
    rw [dict_ext r1 r2 hr1 hr2 htails]

-- --- Fold characterizations ---

theorem pairsFold_get {α : Type} (k : String) :
    ∀ (l : List (String × α)) (m0 : List (String × α)),
      dictGet? (pairsFold m0 l) k =
        match lastVal k l with
        | some v => some v
        | none => dictGet? m0 k
  | [], m0 => rfl
  | kv :: rest, m0 => by
    have ih := pairsFold_get k rest (dictInsert kv.1 kv.2 m0)
    rw [pairsFold, List.foldl_cons]
    rw [pairsFold] at ih
    rw [ih, lastVal]
    cases hl : lastVal k rest with
    | some v => rfl
    | none =>
      simp only [dictGet?_insert]
      by_cases hk : k = kv.1
      · simp [hk]
      · rw [if_neg hk, if_neg (show ¬ kv.1 = k from fun h => hk h.symm)]

theorem pairsFold_wf {α : Type} :
    ∀ (l : List (String × α)) (m0 : List (String × α)),
      dictWF m0 → dictWF (pairsFold m0 l)
  | [], _, h => h
  | kv :: rest, m0, h => by
    rw [pairsFold, List.foldl_cons]
    exact pairsFold_wf rest _ (dictWF_insert kv.1 kv.2 m0 h)

theorem lastVal_filter {α : Type} (k : String) :
    ∀ l : List (String × α),
      lastVal k l = lastVal k (l.filter (fun kv => kv.1 = k))
  | [] => rfl
  | kv :: rest => by
    rw [lastVal, List.filter_cons]
    by_cases hk : kv.1 = k
    · rw [decide_eq_true hk, if_pos rfl]
      conv_rhs => rw [lastVal]
      rw [← lastVal_filter k rest]
    · rw [decide_eq_false hk, if_neg Bool.false_ne_true, ← lastVal_filter k rest]
      cases hl : lastVal k rest with
      | some v => rfl
      | none => rw [if_neg hk]

theorem nodup_key_filter_len {α : Type} (k : String) :
    ∀ l : List (String × α), (l.map Prod.fst).Nodup →
      (l.filter (fun kv => kv.1 = k)).length ≤ 1
  | [], _ => by simp
  | kv :: rest, h => by
    rw [List.map_cons, List.nodup_cons] at h
    obtain ⟨hk, hrest⟩ := h
    rw [List.filter_cons]
    by_cases hkk : kv.1 = k
    · have hnil : rest.filter (fun kv => kv.1 = k) = [] := by
        rw [List.filter_eq_nil_iff]
        intro y hy
        simp only [decide_eq_true_eq]
        intro hyk
        refine hk ?_
        rw [hkk, ← hyk]
        exact List.mem_map_of_mem Prod.fst hy
      simp [hkk, hnil]
    · rw [if_neg (by simp [hkk])]
      exact nodup_key_filter_len k rest hrest

theorem perm_eq_of_len_le_one {α : Type} {l1 l2 : List α} (p : l1.Perm l2)
    (h : l1.length ≤ 1) : l1 = l2 := by
  cases l1 with
  | nil => exact (List.Perm.eq_nil p.symm).symm
  | cons a rest =>
    cases rest with
    | cons b r => simp at h
    | nil =>
      have hlen : l2.length = 1 := by rw [← p.length_eq]; rfl
      cases l2 with
      | nil => cases hlen
      | cons b bs =>
        cases bs with
        | cons c cs => simp at hlen
        | nil =>
          have hab : a ∈ [b] := p.subset (List.mem_singleton_self a)
          rw [List.mem_singleton.mp hab]

theorem pairsFold_perm {α : Type} {l1 l2 : List (String × α)} (p : l1.Perm l2)
    (nd : (l1.map Prod.fst).Nodup) : pairsFold [] l1 = pairsFold [] l2 := by
  apply dict_ext _ _ (pairsFold_wf l1 [] (by simp [dictWF]))
    (pairsFold_wf l2 [] (by simp [dictWF]))
  intro k
  rw [pairsFold_get, pairsFold_get, lastVal_filter k l1, lastVal_filter k l2,
    perm_eq_of_len_le_one (p.filter _) (nodup_key_filter_len k l1 nd)]

theorem mfold_get (num : String) :
    ∀ (pairs : List (String × String)) (m0 : List (String × List String)),
      dictGet? (mfold m0 pairs) num =
        if (pairs.filter (fun np => np.1 = num)) = [] then dictGet? m0 num
        else some ((dictGet? m0 num).getD [] ++
          (pairs.filter (fun np => np.1 = num)).map Prod.snd)
  | [], m0 => by simp [mfold]
  | np :: rest, m0 => by
    have ih := mfold_get num rest (masksAdd np.1 np.2 m0)
    rw [mfold, List.foldl_cons]
    rw [mfold] at ih
    rw [ih, List.filter_cons]
    by_cases hk : np.1 = num
    · rw [decide_eq_true hk, if_pos rfl]
      have hget : dictGet? (masksAdd np.1 np.2 m0) num =
          some ((dictGet? m0 num).getD [] ++ [np.2]) := by
        rw [masksAdd, dictGet?_insert, if_pos hk.symm, hk]
      rw [if_neg (List.cons_ne_nil np _), hget]
      by_cases hrest : rest.filter (fun np => np.1 = num) = []
      · rw [if_pos hrest, hrest]
        simp
      · rw [if_neg hrest]
        simp [List.append_assoc]
    · rw [decide_eq_false hk, if_neg Bool.false_ne_true]
      have hget : dictGet? (masksAdd np.1 np.2 m0) num = dictGet? m0 num := by
        rw [masksAdd, dictGet?_insert, if_neg (fun h => hk h.symm)]
      rw [hget]

theorem dictGet?_mapval {α β : Type} (f : α → β) (k : String) :
    ∀ m : List (String × α),
      dictGet? (m.map (fun kv => (kv.1, f kv.2))) k = (dictGet? m k).map f
  | [] => rfl
  | kv :: rest => by
    rw [List.map_cons]
    by_cases hk : kv.1 = k
    · simp [dictGet?, List.find?_cons, hk]
    · rw [dictGet?_head_skip k kv.1 (f kv.2) _ (fun h => hk h.symm),
        dictGet?_head_skip k kv.1 kv.2 rest (fun h => hk h.symm),
        dictGet?_mapval f k rest]

/-- The per-number sorted mask lists depend only on the multiset of
(num, points) contributions. -/
theorem masks_sorted_congr {pairs1 pairs2 : List (String × String)}
    (p : pairs1.Perm pairs2) (num : String) :
    (dictGet? (mfold [] pairs1) num).map pySort =
      (dictGet? (mfold [] pairs2) num).map pySort := by
  rw [mfold_get, mfold_get]
  by_cases h1 : pairs1.filter (fun np => np.1 = num) = []
  · have h2 : pairs2.filter (fun np => np.1 = num) = [] := by
      have := p.filter (fun np => np.1 = num)
      rw [h1] at this
      exact List.Perm.eq_nil this.symm
    rw [if_pos h1, if_pos h2]
  · have h2 : ¬ pairs2.filter (fun np => np.1 = num) = [] := by
      intro h2
      have := p.filter (fun np => np.1 = num)
      rw [h2] at this
      exact h1 (List.Perm.eq_nil this)
    rw [if_neg h1, if_neg h2]
    simp only [dictGet?, List.find?_nil, Option.map_none', Option.getD_none,
      List.nil_append, Option.map_some']
    rw [pySort_congr ((p.filter (fun np => np.1 = num)).map Prod.snd)]

-- --- Attribute-scan characterizations ---

theorem lastAttrVal_filter (nm : String) :
    ∀ l : List XAttr,
      lastAttrVal nm l = lastAttrVal nm (l.filter (fun a => a.ln = nm))
  | [] => rfl
  | a :: rest => by
    rw [lastAttrVal, List.filter_cons]
    by_cases hk : a.ln = nm
    · rw [decide_eq_true hk, if_pos rfl]
      conv_rhs => rw [lastAttrVal]
      rw [← lastAttrVal_filter nm rest]
    · rw [decide_eq_false hk, if_neg Bool.false_ne_true, ← lastAttrVal_filter nm rest]
      cases hl : lastAttrVal nm rest with
      | some v => rfl
      | none => rw [if_neg hk]

theorem attrName_filter_len {l : List XAttr} {nm : String}
    (hc : attrNameCount nm l ≤ 1) :
    (l.filter (fun a => a.ln = nm)).length ≤ 1 := hc

theorem lastAttrVal_perm {l l' : List XAttr} (p : l.Perm l') (nm : String)
    (hc : attrNameCount nm l ≤ 1) : lastAttrVal nm l = lastAttrVal nm l' := by
  rw [lastAttrVal_filter nm l, lastAttrVal_filter nm l',
    perm_eq_of_len_le_one (p.filter _) (attrName_filter_len hc)]

theorem maskLiStep_fst (np : Option String × Option String) (a : XAttr) :
    (maskLiStep np a).1 = if a.ln = "mask_num" then some a.val else np.1 := by
  unfold maskLiStep
  split_ifs <;> rfl

theorem maskLiStep_snd (np : Option String × Option String) (a : XAttr) :
    (maskLiStep np a).2 = if a.ln = "mask_points" then some a.val else np.2 := by
  unfold maskLiStep
  split_ifs <;> rfl

theorem maskScan_fst : ∀ (attrs : List XAttr) (np : Option String × Option String),
    (List.foldl maskLiStep np attrs).1 = oOr (lastAttrVal "mask_num" attrs) np.1
  | [], np => rfl
  | a :: rest, np => by
    rw [List.foldl_cons, maskScan_fst rest _, lastAttrVal]
    cases hl : lastAttrVal "mask_num" rest with
    | some v => rfl
    | none =>
      rw [maskLiStep_fst]
      by_cases hk : a.ln = "mask_num" <;> simp [hk, oOr]

theorem maskScan_snd : ∀ (attrs : List XAttr) (np : Option String × Option String),
    (List.foldl maskLiStep np attrs).2 = oOr (lastAttrVal "mask_points" attrs) np.2
  | [], np => rfl
  | a :: rest, np => by
    rw [List.foldl_cons, maskScan_snd rest _, lastAttrVal]
    cases hl : lastAttrVal "mask_points" rest with
    | some v => rfl
    | none =>
      rw [maskLiStep_snd]
      by_cases hk : a.ln = "mask_points" <;> simp [hk, oOr]

theorem maskLiScan_eq (attrs : List XAttr) :
    maskLiScan attrs =
      (oOr (lastAttrVal "mask_num" attrs) none,
       oOr (lastAttrVal "mask_points" attrs) none) := by
  rw [maskLiScan]
  refine Prod.ext ?_ ?_
  · rw [maskScan_fst]
  · rw [maskScan_snd]

/-- The (num, points) contribution of an li is invariant under attribute
reordering (given the unambiguity of the name-keyed scan). -/
theorem liMaskPair_congr {li li' : XNode} (he : LiEquiv li li') (hw : LiWF li) :
    liMaskPair li = liMaskPair li' := by
  cases li with
  | other => cases li' with
    | other => rfl
    | elem ns ln a t c => exact absurd he (by simp [LiEquiv])
  | elem ns1 ln1 a1 t1 c1 =>
    cases li' with
    | other => exact absurd he (by simp [LiEquiv])
    | elem ns2 ln2 a2 t2 c2 =>
      obtain ⟨-, -, -, hp, -⟩ := he
      obtain ⟨-, -, -, hn, hpt⟩ := hw
      unfold liMaskPair
      rw [show (XNode.elem ns1 ln1 a1 t1 c1).attrsL = a1 from rfl,
        show (XNode.elem ns2 ln2 a2 t2 c2).attrsL = a2 from rfl,
        maskLiScan_eq a1, maskLiScan_eq a2,
        lastAttrVal_perm hp "mask_num" hn, lastAttrVal_perm hp "mask_points" hpt]

theorem histLiScanP_fst (st : Option String × List (String × MVal)) (a : XAttr) :
    (histLiScanP st a).1 = if a.ln = "num" then some a.val else st.1 := by
  unfold histLiScanP
  split_ifs <;> rfl

theorem histLiScanP_snd (st : Option String × List (String × MVal)) (a : XAttr) :
    (histLiScanP st a).2 =
      if nsHasDTb a.ns then dictInsert a.ln (MVal.s a.val) st.2 else st.2 := by
  unfold histLiScanP
  split_ifs <;> rfl

theorem histScan_fst : ∀ (attrs : List XAttr) (st : Option String × List (String × MVal)),
    (List.foldl histLiScanP st attrs).1 = oOr (lastAttrVal "num" attrs) st.1
  | [], st => rfl
  | a :: rest, st => by
    rw [List.foldl_cons, histScan_fst rest _, lastAttrVal]
    cases hl : lastAttrVal "num" rest with
    | some v => rfl
    | none =>
      rw [histLiScanP_fst]
      by_cases hk : a.ln = "num" <;> simp [hk, oOr]

theorem histScan_snd : ∀ (attrs : List XAttr) (st : Option String × List (String × MVal)),
    (List.foldl histLiScanP st attrs).2 = pairsFold st.2 (dtPairs attrs)
  | [], st => rfl
  | a :: rest, st => by
    rw [List.foldl_cons, histScan_snd rest _]
    simp only [dtPairs, pairsFold, List.filter_cons]
    by_cases hd : nsHasDTb a.ns = true
    · rw [if_pos hd, List.map_cons, List.foldl_cons, histLiScanP_snd, if_pos hd]
    · rw [if_neg hd, histLiScanP_snd, if_neg hd]

theorem dtPairs_keys (l : List XAttr) :
    (dtPairs l).map Prod.fst = (l.filter (fun a => nsHasDTb a.ns)).map XAttr.ln := by
  rw [dtPairs, List.map_map]
  rfl

/-- The (num, module_info) contribution of an li is invariant under
attribute reordering. -/
theorem liHistPair_congr {li li' : XNode} (he : LiEquiv li li') (hw : LiWF li) :
    liHistPair li = liHistPair li' := by
  cases li with
  | other => cases li' with
    | other => rfl
    | elem ns ln a t c => exact absurd he (by simp [LiEquiv])
  | elem ns1 ln1 a1 t1 c1 =>
    cases li' with
    | other => exact absurd he (by simp [LiEquiv])
    | elem ns2 ln2 a2 t2 c2 =>
      obtain ⟨-, -, -, hp, -⟩ := he
      obtain ⟨-, hdt, hnum, -, -⟩ := hw
      unfold liHistPair
      rw [show (XNode.elem ns1 ln1 a1 t1 c1).attrsL = a1 from rfl,
        show (XNode.elem ns2 ln2 a2 t2 c2).attrsL = a2 from rfl]
      have h1 : (List.foldl histLiScanP (none, []) a1).1 =
          (List.foldl histLiScanP (none, []) a2).1 := by
        rw [histScan_fst, histScan_fst, lastAttrVal_perm hp "num" hnum]
      have h2 : (List.foldl histLiScanP (none, []) a1).2 =
          (List.foldl histLiScanP (none, []) a2).2 := by
        rw [histScan_snd, histScan_snd]
        refine pairsFold_perm ((hp.filter _).map _) ?_
        rw [dtPairs_keys]
        exact hdt
      rw [Prod.ext h1 h2]

-- --- Monadic extraction equals the pure one on namespaced inputs ---

theorem nsHasDT_ok {o : Option String} (h : o.isSome = true) :
    nsHasDT o = .ok (nsHasDTb o) := by
  cases o with
  | none => cases h
  | some s => rfl

theorem procTopAttr_ok (m : List (String × String)) (a : XAttr)
    (h : a.ns.isSome = true) : procTopAttr m a = .ok (procTopAttrP m a) := by
  unfold procTopAttr procTopAttrP
  rw [nsHasDT_ok h]
  rfl

theorem foldTop_ok : ∀ (l : List XAttr) (m : List (String × String)),
    (∀ a ∈ l, a.ns.isSome = true) →
    List.foldlM procTopAttr m l = .ok (List.foldl procTopAttrP m l)
  | [], m, _ => rfl
  | a :: rest, m, h => by
    rw [List.foldlM_cons, procTopAttr_ok m a (h a (List.mem_cons_self a rest))]
    rw [List.foldl_cons]
    exact foldTop_ok rest _ (fun x hx => h x (List.mem_cons_of_mem a hx))

theorem histLiScan_ok (st : Option String × List (String × MVal)) (a : XAttr)
    (h : a.ns.isSome = true) : histLiScan st a = .ok (histLiScanP st a) := by
  unfold histLiScan histLiScanP
  rw [nsHasDT_ok h]
  rfl

theorem foldHistLi_ok : ∀ (l : List XAttr) (st : Option String × List (String × MVal)),
    (∀ a ∈ l, a.ns.isSome = true) →
    List.foldlM histLiScan st l = .ok (List.foldl histLiScanP st l)
  | [], _, _ => rfl
  | a :: rest, st, h => by
    rw [List.foldlM_cons, histLiScan_ok st a (h a (List.mem_cons_self a rest))]
    rw [List.foldl_cons]
    exact foldHistLi_ok rest _ (fun x hx => h x (List.mem_cons_of_mem a hx))

theorem procHistLi_ok (h : List (String × List (String × MVal))) (li : XNode)
    (hns : ∀ a ∈ li.attrsL, a.ns.isSome = true) :
    procHistLi h li = .ok (procHistLiP h li) := by
  unfold procHistLi procHistLiP
  rw [foldHistLi_ok li.attrsL (none, []) hns]
  rfl

theorem foldHistLis_ok : ∀ (lis : List XNode) (h : List (String × List (String × MVal))),
    (∀ li ∈ lis, ∀ a ∈ li.attrsL, a.ns.isSome = true) →
    List.foldlM procHistLi h lis = .ok (List.foldl procHistLiP h lis)
  | [], _, _ => rfl
  | li :: rest, h, hns => by
    rw [List.foldlM_cons, procHistLi_ok h li (hns li (List.mem_cons_self li rest))]
    rw [List.foldl_cons]
    exact foldHistLis_ok rest _ (fun x hx => hns x (List.mem_cons_of_mem li hx))

theorem procChild_ok (st : MState) (c : XNode)
    (hns : ∀ li ∈ seqLis c, ∀ a ∈ li.attrsL, a.ns.isSome = true) :
    procChild st c = .ok (procChildP st c) := by
  cases c with
  | other => rfl
  | elem ns ln attrs text children =>
    unfold procChild procChildP
    dsimp only
    by_cases h1 : ln = "masks_history"
    · rw [if_pos h1, if_pos h1]
      rfl
    · rw [if_neg h1, if_neg h1]
      by_cases h2 : ln = "history"
      · rw [if_pos h2, if_pos h2]
        unfold seqLis at hns
        cases hseq : findSeq (XNode.elem ns ln attrs text children) with
        | none => rfl
        | some seq =>
          rw [hseq] at hns
          dsimp only at hns ⊢
          rw [foldHistLis_ok seq.childrenL st.history_items hns]
          rfl
      · rw [if_neg h2, if_neg h2]
        by_cases h3 : ln = "subject"
        · rw [if_pos h3, if_pos h3]
          rfl
        · rw [if_neg h3, if_neg h3]
          rfl

theorem foldChildren_ok : ∀ (l : List XNode) (st : MState),
    (∀ c ∈ l, ∀ li ∈ seqLis c, ∀ a ∈ li.attrsL, a.ns.isSome = true) →
    List.foldlM procChild st l = .ok (List.foldl procChildP st l)
  | [], _, _ => rfl
  | c :: rest, st, h => by
    rw [List.foldlM_cons, procChild_ok st c (h c (List.mem_cons_self c rest))]
    rw [List.foldl_cons]
    exact foldChildren_ok rest _ (fun x hx => h x (List.mem_cons_of_mem c hx))

/-- On a well-formed description element the extraction succeeds and equals
the pure fold pipeline. -/
theorem procDescription_ok (d : XNode) (hw : DescrWF d) :
    procDescription d =
      .ok (assemble (List.foldl procTopAttrP [] d.attrsL)
        (List.foldl procChildP MState.empty d.childrenL)) := by
  obtain ⟨hns, -, hli, -⟩ := hw
  unfold procDescription
  rw [foldTop_ok d.attrsL [] hns,
    foldChildren_ok d.childrenL MState.empty (fun c hc li hl => (hli c hc li hl).1)]
  rfl

-- --- State components of the pure child fold ---

theorem procMaskLi_eq (m : List (String × List String)) (li : XNode) :
    procMaskLi m li =
      match liMaskPair li with
      | some np => masksAdd np.1 np.2 m
      | none => m := by
  unfold procMaskLi liMaskPair
  dsimp only
  split_ifs <;> rfl

theorem foldMaskLis : ∀ (lis : List XNode) (m : List (String × List String)),
    List.foldl procMaskLi m lis = mfold m (lis.filterMap liMaskPair)
  | [], _ => rfl
  | li :: rest, m => by
    rw [List.foldl_cons, List.filterMap_cons, procMaskLi_eq]
    cases hp : liMaskPair li with
    | none => exact foldMaskLis rest m
    | some np =>
      rw [mfold, List.foldl_cons]
      exact foldMaskLis rest _

theorem procHistLiP_eq (h : List (String × List (String × MVal))) (li : XNode) :
    procHistLiP h li =
      match liHistPair li with
      | some kv => dictInsert kv.1 kv.2 h
      | none => h := by
  unfold procHistLiP liHistPair
  dsimp only
  cases hs : (List.foldl histLiScanP (none, []) li.attrsL).1 with
  | none => rfl
  | some num => rfl

theorem foldHistLisP : ∀ (lis : List XNode) (h : List (String × List (String × MVal))),
    List.foldl procHistLiP h lis = pairsFold h (lis.filterMap liHistPair)
  | [], _ => rfl
  | li :: rest, h => by
    rw [List.foldl_cons, List.filterMap_cons, procHistLiP_eq]
    cases hp : liHistPair li with
    | none => exact foldHistLisP rest h
    | some kv =>
      rw [pairsFold, List.foldl_cons]
      exact foldHistLisP rest _

theorem procChildP_masks (st : MState) (c : XNode) :
    (procChildP st c).masks_by_num = mfold st.masks_by_num (maskContribs c) := by
  cases c with
  | other => rfl
  | elem ns ln attrs text children =>
    unfold procChildP maskContribs
    dsimp only
    by_cases h1 : ln = "masks_history"
    · rw [if_pos h1, if_pos h1]
      cases hseq : findSeq (XNode.elem ns ln attrs text children) with
      | none => rfl
      | some seq => exact foldMaskLis seq.childrenL st.masks_by_num
    · rw [if_neg h1, if_neg h1]
      by_cases h2 : ln = "history"
      · rw [if_pos h2]
        cases hseq : findSeq (XNode.elem ns ln attrs text children) with
        | none => rfl
        | some seq => rfl
      · rw [if_neg h2]
        by_cases h3 : ln = "subject"
        · rw [if_pos h3]
          cases findBag (XNode.elem ns ln attrs text children) <;> rfl
        · rw [if_neg h3]
          rfl

theorem procChildP_hist (st : MState) (c : XNode) :
    (procChildP st c).history_items = pairsFold st.history_items (histContribs c) := by
  cases c with
  | other => rfl
  | elem ns ln attrs text children =>
    unfold procChildP histContribs
    dsimp only
    by_cases h1 : ln = "masks_history"
    · rw [if_pos h1, if_pos h1]
      cases findSeq (XNode.elem ns ln attrs text children) <;> rfl
    · rw [if_neg h1, if_neg h1]
      by_cases h2 : ln = "history"
      · rw [if_pos h2, if_pos h2]
        cases hseq : findSeq (XNode.elem ns ln attrs text children) with
        | none => rfl
        | some seq => exact foldHistLisP seq.childrenL st.history_items
      · rw [if_neg h2, if_neg h2]
        by_cases h3 : ln = "subject"
        · rw [if_pos h3]
          cases findBag (XNode.elem ns ln attrs text children) <;> rfl
        · rw [if_neg h3]
          rfl

theorem procChildP_tags (st : MState) (c : XNode) :
    (procChildP st c).tags = st.tags ++ tagContribs c := by
  cases c with
  | other => simp [procChildP, tagContribs]
  | elem ns ln attrs text children =>
    unfold procChildP tagContribs
    dsimp only
    by_cases h1 : ln = "masks_history"
    · rw [if_pos h1, if_pos h1]
      cases findSeq (XNode.elem ns ln attrs text children) <;> simp
    · rw [if_neg h1, if_neg h1]
      by_cases h2 : ln = "history"
      · rw [if_pos h2, if_pos h2]
        cases findSeq (XNode.elem ns ln attrs text children) <;> simp
      · rw [if_neg h2, if_neg h2]
        by_cases h3 : ln = "subject"
        · rw [if_pos h3, if_pos h3]
          cases findBag (XNode.elem ns ln attrs text children) <;> simp
        · rw [if_neg h3, if_neg h3]
          simp

theorem foldChildrenP_masks : ∀ (l : List XNode) (st : MState),
    (List.foldl procChildP st l).masks_by_num =
      mfold st.masks_by_num (l.flatMap maskContribs)
  | [], _ => rfl
  | c :: rest, st => by
    rw [List.foldl_cons, List.flatMap_cons, foldChildrenP_masks rest _,
      procChildP_masks]
    conv_rhs => rw [mfold, List.foldl_append]
    rfl

theorem foldChildrenP_hist : ∀ (l : List XNode) (st : MState),
    (List.foldl procChildP st l).history_items =
      pairsFold st.history_items (l.flatMap histContribs)
  | [], _ => rfl
  | c :: rest, st => by
    rw [List.foldl_cons, List.flatMap_cons, foldChildrenP_hist rest _,
      procChildP_hist]
    conv_rhs => rw [pairsFold, List.foldl_append]
    rfl

theorem foldChildrenP_tags : ∀ (l : List XNode) (st : MState),
    (List.foldl procChildP st l).tags = st.tags ++ l.flatMap tagContribs
  | [], st => by simp
  | c :: rest, st => by
    rw [List.foldl_cons, List.flatMap_cons, foldChildrenP_tags rest _,
      procChildP_tags, List.append_assoc]

-- --- From the ordering relation to permutations of contributions ---

theorem forall₂_filterMap_eq {α β : Type} {R : α → α → Prop} {f : α → Option β} :
    ∀ {l1 l2 : List α}, List.Forall₂ R l1 l2 →
      (∀ x ∈ l1, ∀ y, R x y → f x = f y) → l1.filterMap f = l2.filterMap f := by
  intro l1 l2 h
  induction h with
  | nil => intro _; rfl
  | cons hxy htail ih =>
    intro hf
    rw [List.filterMap_cons, List.filterMap_cons,
      ← hf _ (List.mem_cons_self _ _) _ hxy,
      ih (fun z hz => hf z (List.mem_cons_of_mem _ hz))]

theorem relPerm_filterMap {α β : Type} {R : α → α → Prop} {f : α → Option β}
    {l1 l2 : List α} (h : RelPerm R l1 l2)
    (hf : ∀ x ∈ l1, ∀ y, R x y → f x = f y) :
    (l1.filterMap f).Perm (l2.filterMap f) := by
  obtain ⟨l, hfa, hp⟩ := h
  rw [forall₂_filterMap_eq hfa hf]
  exact hp.filterMap f

theorem find?_forall₂ {R : XNode → XNode → Prop} {p : XNode → Bool}
    (hp : ∀ x y, R x y → p x = p y) :
    ∀ {l1 l2 : List XNode}, List.Forall₂ R l1 l2 →
      (l1.find? p = none ∧ l2.find? p = none) ∨
      (∃ x y, l1.find? p = some x ∧ l2.find? p = some y ∧ R x y) := by
  intro l1 l2 h
  induction h with
  | nil => exact .inl ⟨rfl, rfl⟩
  | cons hxy htail ih =>
    rename_i x y xs ys
    cases hpx : p x with
    | true =>
      exact .inr ⟨x, y, List.find?_cons_of_pos xs hpx,
        List.find?_cons_of_pos ys (by rw [← hp x y hxy]; exact hpx), hxy⟩
    | false =>
      have hpy : ¬ p y = true := by rw [← hp x y hxy, hpx]; simp
      rcases ih with ⟨hn1, hn2⟩ | ⟨u, v, hu, hv, huv⟩
      · exact .inl ⟨by rw [List.find?_cons_of_neg xs (by rw [hpx]; simp), hn1],
          by rw [List.find?_cons_of_neg ys hpy, hn2]⟩
      · exact .inr ⟨u, v, by rw [List.find?_cons_of_neg xs (by rw [hpx]; simp), hu],
          by rw [List.find?_cons_of_neg ys hpy, hv], huv⟩

theorem subEquiv_isRdf {x y : XNode} (he : SubEquiv x y) (name : String) :
    x.isRdf name = y.isRdf name := by
  cases x with
  | other => cases y with
    | other => rfl
    | elem _ _ _ _ _ => exact absurd he (by simp [SubEquiv])
  | elem ns1 ln1 a1 t1 c1 =>
    cases y with
    | other => exact absurd he (by simp [SubEquiv])
    | elem ns2 ln2 a2 t2 c2 =>
      obtain ⟨h1, h2, -⟩ := he
      simp [XNode.isRdf, h1, h2]

/-- Mask contributions of order-equivalent children are permutations of
each other. -/
theorem childEquiv_maskContribs {c c' : XNode} (he : ChildEquiv c c')
    (hw : ∀ li ∈ seqLis c, LiWF li) :
    (maskContribs c).Perm (maskContribs c') := by
  cases c with
  | other => cases c' with
    | other => exact List.Perm.refl _
    | elem _ _ _ _ _ => exact absurd he (by simp [ChildEquiv])
  | elem ns1 ln1 a1 t1 ch1 =>
    cases c' with
    | other => exact absurd he (by simp [ChildEquiv])
    | elem ns2 ln2 a2 t2 ch2 =>
      obtain ⟨-, hln, -, -, hfa⟩ := he
      unfold maskContribs
      dsimp only
      rw [← hln]
      by_cases h1 : ln1 = "masks_history"
      · rw [if_pos h1, if_pos h1]
        have e1 : findSeq (XNode.elem ns1 ln1 a1 t1 ch1)
            = ch1.toList.find? (fun n => n.isRdf "Seq") := rfl
        have e2 : findSeq (XNode.elem ns2 ln1 a2 t2 ch2)
            = ch2.toList.find? (fun n => n.isRdf "Seq") := rfl
        rcases find?_forall₂ (R := SubEquiv)
            (fun x y hxy => subEquiv_isRdf hxy "Seq") hfa with
          ⟨hn1, hn2⟩ | ⟨s, s', hs, hs', hss⟩
        · rw [e1, hn1, e2, hn2]
        · rw [e1, hs, e2, hs']
          have hw' : ∀ li ∈ s.childrenL, LiWF li := by
            intro li hli
            apply hw
            unfold seqLis
            rw [e1, hs]
            exact hli
          cases s with
          | other => cases s' with
            | other => exact List.Perm.refl _
            | elem _ _ _ _ _ => exact absurd hss (by simp [SubEquiv])
          | elem bn1 bl1 ba1 bt1 bc1 =>
            cases s' with
            | other => exact absurd hss (by simp [SubEquiv])
            | elem bn2 bl2 ba2 bt2 bc2 =>
              obtain ⟨-, -, -, -, hrp⟩ := hss
              exact relPerm_filterMap hrp
                (fun li hli y hy => liMaskPair_congr hy (hw' li hli))
      · rw [if_neg h1, if_neg h1]

/-- History contributions of order-equivalent children are permutations of
each other. -/
theorem childEquiv_histContribs {c c' : XNode} (he : ChildEquiv c c')
    (hw : ∀ li ∈ seqLis c, LiWF li) :
    (histContribs c).Perm (histContribs c') := by
  cases c with
  | other => cases c' with
    | other => exact List.Perm.refl _
    | elem _ _ _ _ _ => exact absurd he (by simp [ChildEquiv])
  | elem ns1 ln1 a1 t1 ch1 =>
    cases c' with
    | other => exact absurd he (by simp [ChildEquiv])
    | elem ns2 ln2 a2 t2 ch2 =>
      obtain ⟨-, hln, -, -, hfa⟩ := he
      unfold histContribs
      dsimp only
      rw [← hln]
      by_cases h0 : ln1 = "masks_history"
      · rw [if_pos h0, if_pos h0]
      · rw [if_neg h0, if_neg h0]
        by_cases h1 : ln1 = "history"
        · rw [if_pos h1, if_pos h1]
          have e1 : findSeq (XNode.elem ns1 ln1 a1 t1 ch1)
              = ch1.toList.find? (fun n => n.isRdf "Seq") := rfl
          have e2 : findSeq (XNode.elem ns2 ln1 a2 t2 ch2)
              = ch2.toList.find? (fun n => n.isRdf "Seq") := rfl
          rcases find?_forall₂ (R := SubEquiv)
              (fun x y hxy => subEquiv_isRdf hxy "Seq") hfa with
            ⟨hn1, hn2⟩ | ⟨s, s', hs, hs', hss⟩
          · rw [e1, hn1, e2, hn2]
          · rw [e1, hs, e2, hs']
            have hw' : ∀ li ∈ s.childrenL, LiWF li := by
              intro li hli
              apply hw
              unfold seqLis
              rw [e1, hs]
              exact hli
            cases s with
            | other => cases s' with
              | other => exact List.Perm.refl _
              | elem _ _ _ _ _ => exact absurd hss (by simp [SubEquiv])
            | elem bn1 bl1 ba1 bt1 bc1 =>
              cases s' with
              | other => exact absurd hss (by simp [SubEquiv])
              | elem bn2 bl2 ba2 bt2 bc2 =>
                obtain ⟨-, -, -, -, hrp⟩ := hss
                exact relPerm_filterMap hrp
                  (fun li hli y hy => liHistPair_congr hy (hw' li hli))
        · rw [if_neg h1, if_neg h1]

/-- Tag contributions of order-equivalent children are permutations of each
other. -/
theorem childEquiv_tagContribs {c c' : XNode} (he : ChildEquiv c c') :
    (tagContribs c).Perm (tagContribs c') := by
  cases c with
  | other => cases c' with
    | other => exact List.Perm.refl _
    | elem _ _ _ _ _ => exact absurd he (by simp [ChildEquiv])
  | elem ns1 ln1 a1 t1 ch1 =>
    cases c' with
    | other => exact absurd he (by simp [ChildEquiv])
    | elem ns2 ln2 a2 t2 ch2 =>
      obtain ⟨-, hln, -, -, hfa⟩ := he
      unfold tagContribs
      dsimp only
      rw [← hln]
      by_cases h0 : ln1 = "masks_history"
      · rw [if_pos h0, if_pos h0]
      · rw [if_neg h0, if_neg h0]
        by_cases h1 : ln1 = "history"
        · rw [if_pos h1, if_pos h1]
        · rw [if_neg h1, if_neg h1]
          by_cases h2 : ln1 = "subject"
          · rw [if_pos h2, if_pos h2]
            have e1 : findBag (XNode.elem ns1 ln1 a1 t1 ch1)
                = ch1.toList.find? (fun n => n.isRdf "Bag") := rfl
            have e2 : findBag (XNode.elem ns2 ln1 a2 t2 ch2)
                = ch2.toList.find? (fun n => n.isRdf "Bag") := rfl
            rcases find?_forall₂ (R := SubEquiv)
                (fun x y hxy => subEquiv_isRdf hxy "Bag") hfa with
              ⟨hn1, hn2⟩ | ⟨s, s', hs, hs', hss⟩
            · rw [e1, hn1, e2, hn2]
            · rw [e1, hs, e2, hs']
              cases s with
              | other => cases s' with
                | other => exact List.Perm.refl _
                | elem _ _ _ _ _ => exact absurd hss (by simp [SubEquiv])
              | elem bn1 bl1 ba1 bt1 bc1 =>
                cases s' with
                | other => exact absurd hss (by simp [SubEquiv])
                | elem bn2 bl2 ba2 bt2 bc2 =>
                  obtain ⟨-, -, -, -, hrp⟩ := hss
                  unfold bagTexts
                  refine relPerm_filterMap hrp ?_
                  intro li _ y hy
                  cases li with
                  | other => cases y with
                    | other => rfl
                    | elem _ _ _ _ _ => exact absurd hy (by simp [LiEquiv])
                  | elem xn xl xa xt xc =>
                    cases y with
                    | other => exact absurd hy (by simp [LiEquiv])
                    | elem yn yl ya yt yc =>
                      obtain ⟨-, -, ht, -, -⟩ := hy
                      simp [XNode.textL, ht]
          · rw [if_neg h2, if_neg h2]

/-- Flat-mapped contributions over related child lists are permutations. -/
theorem flatMap_relPerm {β : Type} {g : XNode → List β} {l1 l2 : List XNode}
    (h : RelPerm ChildEquiv l1 l2)
    (hg : ∀ x ∈ l1, ∀ y, ChildEquiv x y → (g x).Perm (g y)) :
    (l1.flatMap g).Perm (l2.flatMap g) := by
  obtain ⟨l, hfa, hp⟩ := h
  have h1 : (l1.flatMap g).Perm (l.flatMap g) := by
    rw [List.flatMap_def, List.flatMap_def]
    refine List.Perm.flatten_congr ?_
    clear hp
    induction hfa with
    | nil => exact List.Forall₂.nil
    | cons hxy htail ih =>
      refine List.Forall₂.cons (hg _ (List.mem_cons_self _ _) _ hxy) ?_
      exact ih (fun x hx y hy => hg x (List.mem_cons_of_mem _ hx) y hy)
  exact h1.trans (by rw [List.flatMap_def, List.flatMap_def]; exact (hp.map g).flatten)

-- --- The top-level attribute fold as a dictionary fold ---

theorem dictInsert_idem {α : Type} (k : String) (v : α) :
    ∀ m : List (String × α), dictInsert k v (dictInsert k v m) = dictInsert k v m
  | [] => by simp [dictInsert]
  | (k0, v0) :: rest => by
    simp only [dictInsert]
    by_cases h1 : k = k0
    · rw [if_pos h1]
      simp [dictInsert]
    · rw [if_neg h1]
      by_cases h2 : strLtb k k0 = true
      · rw [if_pos h2]
        simp [dictInsert]
      · rw [if_neg h2]
        simp only [dictInsert, if_neg h1, if_neg h2]
        rw [dictInsert_idem k v rest]

theorem ignored_not_hash {s : String} (h : s ∈ IGNORED_DT_ATTRS) :
    ¬(s = "history_auto_hash" ∨ s = "history_current_hash") := by
  intro hc
  rcases hc with hc | hc <;> rw [hc] at h <;> simp [IGNORED_DT_ATTRS] at h

/-- The two-step attribute keep (normal keep plus the hash override, which
re-inserts the same pair) collapses to a single conditional insertion. -/
theorem procTopAttrP_eq (m : List (String × String)) (a : XAttr) :
    procTopAttrP m a = if keptB a then dictInsert a.ln a.val m else m := by
  unfold procTopAttrP keptB
  dsimp only
  cases hdt : nsHasDTb a.ns with
  | false => simp [hdt]
  | true =>
    by_cases hig : a.ln ∈ IGNORED_DT_ATTRS
    · simp [hdt, hig, ignored_not_hash hig]
    · by_cases hh : a.ln = "history_auto_hash" ∨ a.ln = "history_current_hash"
      · simp [hdt, hig, hh, dictInsert_idem]
      · simp [hdt, hig, hh]

theorem topPairs_keys (l : List XAttr) :
    (topPairs l).map Prod.fst = (l.filter keptB).map XAttr.ln := by
  rw [topPairs, List.map_map]
  rfl

theorem foldTopP : ∀ (l : List XAttr) (m : List (String × String)),
    List.foldl procTopAttrP m l = pairsFold m (topPairs l)
  | [], _ => rfl
  | a :: rest, m => by
    rw [List.foldl_cons, procTopAttrP_eq, foldTopP rest]
    by_cases hk : keptB a = true
    · rw [if_pos hk]
      have ht : topPairs (a :: rest) = (a.ln, a.val) :: topPairs rest := by
        rw [topPairs, List.filter_cons, if_pos hk, List.map_cons]
        rfl
      rw [ht]
      rfl
    · rw [if_neg hk]
      have ht : topPairs (a :: rest) = topPairs rest := by
        rw [topPairs, List.filter_cons, if_neg hk]
        rfl
      rw [ht]

theorem keptB_and_not_volatile (a : XAttr) : (keptB a && !volatileB a) = keptB a := by
  unfold keptB volatileB
  cases h1 : nsHasDTb a.ns <;>
    cases h2 : decide (a.ln ∈ IGNORED_DT_ATTRS) <;> simp [h1, h2]

/-- Dropping the volatile blacklisted attributes does not change the kept
(localname, value) pairs. -/
theorem topPairs_filter_volatile (l : List XAttr) :
    topPairs (l.filter (fun a => !volatileB a)) = topPairs l := by
  rw [topPairs, List.filter_filter, topPairs,
    List.filter_congr (fun x _ => keptB_and_not_volatile x)]

/-- Record assembly only depends on the top dictionary, the history
dictionary, the sorted mask lookups and the tag multiset. -/
theorem assemble_congr {top1 top2 : List (String × String)} {st1 st2 : MState}
    (htop : top1 = top2) (hhist : st1.history_items = st2.history_items)
    (hmask : ∀ k, dictGet? (st1.masks_by_num.map (fun kv => (kv.1, pySort kv.2))) k
      = dictGet? (st2.masks_by_num.map (fun kv => (kv.1, pySort kv.2))) k)
    (htags : st1.tags.Perm st2.tags) :
    assemble top1 st1 = assemble top2 st2 := by
  unfold assemble
  dsimp only
  rw [htop, hhist, pySortedSet_congr htags]
  congr 1
  apply List.foldl_ext
  intro h kv _
  rw [hmask kv.1]

/-- Claim C2.  Two parsed sidecars whose (well-formed) description elements
differ only in the volatile blacklisted darktable attributes, or only in
ordering (of description attributes, of description children, of the li
elements inside Seq/Bag containers, and of li attributes), extract to
structurally equal records, so no diff is reported for the pair. -/
theorem c2_equivalent_sidecars_extract_equal_records (r1 r2 : XNode)
    (hw1 : DescrWF (descrOf r1)) (hw2 : DescrWF (descrOf r2))
    (h : VolatileOnly (descrOf r1) (descrOf r2) ∨
      OrderOnly (descrOf r1) (descrOf r2)) :
    extract_darktable_data (.parsed r1) = extract_darktable_data (.parsed r2) := by
  show procDescription (descrOf r1) = procDescription (descrOf r2)
  rw [procDescription_ok _ hw1, procDescription_ok _ hw2]
  refine congrArg Except.ok ?_
  rcases h with hv | ho
  · obtain ⟨ha, hc⟩ := hv
    have htop : List.foldl procTopAttrP [] (descrOf r1).attrsL
        = List.foldl procTopAttrP [] (descrOf r2).attrsL := by
      rw [foldTopP, foldTopP, ← topPairs_filter_volatile (descrOf r1).attrsL, ha,
        topPairs_filter_volatile]
    rw [htop, hc]
  · obtain ⟨ha, hc⟩ := ho
    obtain ⟨-, hnd1, hli1, hkey1⟩ := hw1
    have hmp : ((descrOf r1).childrenL.flatMap maskContribs).Perm
        ((descrOf r2).childrenL.flatMap maskContribs) :=
      flatMap_relPerm hc (fun x hx y hy => childEquiv_maskContribs hy (hli1 x hx))
    have hhp : ((descrOf r1).childrenL.flatMap histContribs).Perm
        ((descrOf r2).childrenL.flatMap histContribs) :=
      flatMap_relPerm hc (fun x hx y hy => childEquiv_histContribs hy (hli1 x hx))
    have htp : ((descrOf r1).childrenL.flatMap tagContribs).Perm
        ((descrOf r2).childrenL.flatMap tagContribs) :=
      flatMap_relPerm hc (fun x hx y hy => childEquiv_tagContribs hy)
    apply assemble_congr
    · rw [foldTopP, foldTopP]
      have hperm : (topPairs (descrOf r1).attrsL).Perm (topPairs (descrOf r2).attrsL) := by
        unfold topPairs
        exact (ha.filter keptB).map (fun a => (a.ln, a.val))
      refine pairsFold_perm hperm ?_
      rw [topPairs_keys]
      exact hnd1
    · rw [foldChildrenP_hist, foldChildrenP_hist]
      exact pairsFold_perm hhp hkey1
    · intro k
      rw [dictGet?_mapval pySort k, dictGet?_mapval pySort k,
        foldChildrenP_masks, foldChildrenP_masks]
      exact masks_sorted_congr hmp k
    · rw [foldChildrenP_tags, foldChildrenP_tags]
      exact htp

theorem c2_equivalent_sidecars_extract_equal_records_witness :
    DescrWF (descrOf c2d1) ∧ DescrWF (descrOf c2d2) ∧
    OrderOnly (descrOf c2d1) (descrOf c2d2) ∧
    extract_darktable_data (.parsed c2d1) = extract_darktable_data (.parsed c2d2) :=
  ⟨by unfold DescrWF LiWF; decide, by unfold DescrWF LiWF; decide,
    ⟨List.Perm.swap c2a2 c2a1 [], ⟨[], List.Forall₂.nil, List.Perm.nil⟩⟩,
    c2_equivalent_sidecars_extract_equal_records c2d1 c2d2
      (by unfold DescrWF LiWF; decide) (by unfold DescrWF LiWF; decide)
      (Or.inr ⟨List.Perm.swap c2a2 c2a1 [], ⟨[], List.Forall₂.nil, List.Perm.nil⟩⟩)⟩

/-- Claim C1.  The spec says a dimension change deletes the old dimension's
cache directory.  In the code, `update_settings` assigns the new dimension
to `self.preview_max_dimension` *before* testing
`self.preview_max_dimension != preview_max_dimension`, so the clearing
branch is unreachable and no directory is ever deleted: after changing
800 → 1200 the directory for 800 still exists (the subsequent request is a
miss only because it looks in the new 1200 directory). -/
theorem c1_dimension_change_never_clears_cache :
    (update_settings st800 "dt" 1200 4 true).preview_max_dimension = 1200 ∧
    (update_settings st800 "dt" 1200 4 true).cacheFS = st800.cacheFS ∧
    previewExists st800 jobAbc = true ∧
    previewExists (update_settings st800 "dt" 1200 4 true) jobAbc = false ∧
    (∀ st p d t o, (update_settings st p d t o).cacheFS = st.cacheFS) := by
  refine ⟨by decide, by decide, by decide, by decide, ?_⟩
  intro st p d t o
  simp [update_settings]

/-- Claim C6.  When cancellation is first observed at the checkpoint inside
the `try` block, the early `return` emits `job_finished` and the `finally`
clause emits it again: the bookkeeping signal is emitted twice for that
attempt (no ready/failed signal is emitted, as the claim also states). -/
theorem c6_cancel_inside_try_double_job_finished :
    (workerRun cancelInsideTryEnv 0 2).1 = [.jobFinished, .jobFinished] ∧
    (workerRun cancelInsideTryEnv 0 2).1.count .jobFinished = 2 ∧
    (workerRun cancelInsideTryEnv 0 2).1.count .previewReady = 0 ∧
    (workerRun cancelInsideTryEnv 0 2).1.count .previewFailed = 0 := by
  decide

/-- Claim C7.  Extraction returns the empty record on I/O and parse
failures, but it can raise: on a parsed input whose description element
carries an attribute with no XML namespace, `"darktable" in qname.namespace`
is evaluated on `None` and raises `TypeError`, which the function does not
catch. -/
theorem c7_extraction_raises_on_unnamespaced_attribute :
    extract_darktable_data .ioError = .ok emptyRecord ∧
    extract_darktable_data .parseError = .ok emptyRecord ∧
    extract_darktable_data (.parsed badRoot) = .error .typeError := by
  exact ⟨rfl, rfl, rfl⟩

/-- Every diff signal emitted by one file step is a `fileDiff` for that
file. -/
theorem fileStep_mem (f : ScanFile) (s : ScanSignal) (hs : s ∈ (fileStep f).1) :
    ∃ a b, s = ScanSignal.fileDiff f.relative_path a b := by
  unfold fileStep at hs
  repeat' split at hs
  all_goals try (simp only [apply_ite Prod.fst] at hs; split_ifs at hs)
  all_goals simp at hs
  all_goals exact ⟨_, _, hs⟩

/-- The scan loop emits only diff and progress signals. -/
theorem scanLoop_mem (running : Nat → Bool) (total : Nat) (s : ScanSignal) :
    ∀ fs i, s ∈ scanLoop running total fs i →
      (∃ r a b, s = ScanSignal.fileDiff r a b) ∨
        (∃ c t, s = ScanSignal.scanProgress c t) := by
  intro fs
  induction fs with
  | nil => intro i h; simp [scanLoop] at h
  | cons f rest ih =>
    intro i h
    rw [scanLoop] at h
    split at h
    · simp only [List.append_assoc, List.mem_append] at h
      rcases h with h | h | h
      · obtain ⟨a, b, rfl⟩ := fileStep_mem f s h
        exact .inl ⟨_, _, _, rfl⟩
      · split at h <;> simp at h
        exact .inr ⟨_, _, h⟩
      · exact ih (i + 1) h
    · simp at h

/-- Claim C9.  Whatever the walk result (including a walk failure and an
empty tree) and whatever the cooperative cancellation flag does, the
scanner emits the `scan_finished` notification exactly once. -/
theorem c9_scan_finished_exactly_once (w : WalkResult) (running : Nat → Bool) :
    (scannerRun w running).count ScanSignal.scanFinished = 1 := by
  cases w with
  | walkError => rfl
  | files fs =>
    rw [scannerRun, List.count_append]
    have h0 : (scanLoop running fs.length fs 0).count ScanSignal.scanFinished = 0 := by
      rw [List.count_eq_zero]
      intro hmem
      rcases scanLoop_mem running fs.length _ fs 0 hmem with ⟨r, a, b, h⟩ | ⟨c, t, h⟩ <;>
        cases h
    rw [h0]
    decide

/-- A file whose session hashes match produces no signals other than the
possible skip (its diff-signal list is empty). -/
theorem fileStep_skip (f : ScanFile) (h : hashesMatch f) : (fileStep f).1 = [] := by
  obtain ⟨sd, hsd, h1, h2⟩ := h
  unfold fileStep
  split
  · rw [hsd]
    simp only []
    rw [if_pos ⟨h1, h2⟩]
  · rfl

/-- The scan loop never emits a diff for a file whose session hashes
match. -/
theorem scanLoop_no_diff_of_match (running : Nat → Bool) (total : Nat) (r : String)
    (sd ad : SidecarRecord) :
    ∀ fs i, (∀ f ∈ fs, f.relative_path = r → hashesMatch f) →
      ScanSignal.fileDiff r sd ad ∉ scanLoop running total fs i := by
  intro fs
  induction fs with
  | nil => intro i _ hmem; simp [scanLoop] at hmem
  | cons f rest ih =>
    intro i hf hmem
    rw [scanLoop] at hmem
    split at hmem
    · simp only [List.append_assoc, List.mem_append] at hmem
      rcases hmem with hmem | hmem | hmem
      · by_cases hrel : f.relative_path = r
        · rw [fileStep_skip f (hf f (List.mem_cons_self f rest) hrel)] at hmem
          simp at hmem
        · obtain ⟨a, b, hEq⟩ := fileStep_mem f _ hmem
          exact hrel (ScanSignal.fileDiff.inj hEq).1.symm
      · split at hmem <;> simp at hmem
      · exact ih (i + 1) (fun g hg hr => hf g (List.mem_cons_of_mem f hg) hr) hmem
    · simp at hmem

/-- Claim C3.  If every session sidecar at a relative path extracts with
`history_auto_hash` present and equal to `history_current_hash`, the scan
never emits a diff for that path, regardless of the archive content and of
cancellation. -/
theorem c3_hash_match_never_diffed (fs : List ScanFile) (running : Nat → Bool)
    (r : String) (h : ∀ f ∈ fs, f.relative_path = r → hashesMatch f) :
    ∀ sd ad, ScanSignal.fileDiff r sd ad ∉ scannerRun (.files fs) running := by
  intro sd ad hmem
  rw [scannerRun, List.mem_append] at hmem
  rcases hmem with hmem | hmem
  · exact scanLoop_no_diff_of_match running fs.length r sd ad fs 0 h hmem
  · simp at hmem

/-- Witness for C3: a session copy with equal hashes and a differing
archive copy is never reported. -/
theorem c3_hash_match_never_diffed_witness :
    (∀ f ∈ [skipFile], f.relative_path = "p.xmp" → hashesMatch f) ∧
    (∀ sd ad,
      ScanSignal.fileDiff "p.xmp" sd ad ∉ scannerRun (.files [skipFile]) (fun _ => true)) := by
  have h : ∀ f ∈ [skipFile], f.relative_path = "p.xmp" → hashesMatch f := by
    intro f hf _
    rcases List.mem_singleton.mp hf with rfl
    exact ⟨⟨[("history_auto_hash", "abc"), ("history_current_hash", "abc")], [], []⟩,
      by decide, by decide, by decide⟩
  exact ⟨h, c3_hash_match_never_diffed [skipFile] (fun _ => true) "p.xmp" h⟩

/-- A file whose session copy extracts to the empty record and whose
archive copy exists and extracts to a different record is reported as a
diff. -/
theorem fileStep_empty_session (f : ScanFile) (ad : SidecarRecord)
    (ha : f.archiveExists = true)
    (hs : extract_darktable_data f.sessionContent = .ok emptyRecord)
    (har : extract_darktable_data f.archiveContent = .ok ad)
    (hne : ad ≠ emptyRecord) :
    (fileStep f).1 = [ScanSignal.fileDiff f.relative_path emptyRecord ad] := by
  unfold fileStep
  simp [ha, hs, har, dictGet?, emptyRecord]
  exact fun h => hne h.symm

/-- A file of the scanned list whose step emits a diff contributes that
diff to an uncancelled scan loop. -/
theorem scanLoop_diff_mem (total : Nat) (sd ad : SidecarRecord) :
    ∀ fs i (f : ScanFile), f ∈ fs →
      (fileStep f).1 = [ScanSignal.fileDiff f.relative_path sd ad] →
      ScanSignal.fileDiff f.relative_path sd ad ∈ scanLoop (fun _ => true) total fs i := by
  intro fs
  induction fs with
  | nil => intro i f hf; exact absurd hf (List.not_mem_nil f)
  | cons g rest ih =>
    intro i f hf hstep
    rw [scanLoop]
    rcases List.mem_cons.mp hf with rfl | hf
    · simp only [if_pos]
      exact List.mem_append.mpr (.inl (List.mem_append.mpr (.inl (by
        rw [hstep]; exact List.mem_singleton_self _))))
    · simp only [if_pos]
      exact List.mem_append.mpr (.inr (ih (i + 1) f hf hstep))

/-- Claim C10.  If the session sidecar extracts to the empty record (for
example because it is unreadable) while its archive counterpart exists and
extracts to a non-empty record, an uncancelled scan emits a diff pairing
the empty session record with the archive record. -/
theorem c10_empty_session_record_is_diffed (fs : List ScanFile) (f : ScanFile)
    (ad : SidecarRecord) (hf : f ∈ fs)
    (ha : f.archiveExists = true)
    (hs : extract_darktable_data f.sessionContent = .ok emptyRecord)
    (har : extract_darktable_data f.archiveContent = .ok ad)
    (hne : ad ≠ emptyRecord) :
    ScanSignal.fileDiff f.relative_path emptyRecord ad ∈
      scannerRun (.files fs) (fun _ => true) := by
  rw [scannerRun, List.mem_append]
  exact .inl (scanLoop_diff_mem fs.length emptyRecord ad fs 0 f hf
    (fileStep_empty_session f ad ha hs har hne))

/-- Witness for C10: an unreadable session copy with a non-empty archive
copy is reported as a diff of the empty record against the archive
record. -/
theorem c10_empty_session_record_is_diffed_witness :
    brokenSessionFile ∈ [brokenSessionFile] ∧
    brokenSessionFile.archiveExists = true ∧
    extract_darktable_data brokenSessionFile.sessionContent = .ok emptyRecord ∧
    extract_darktable_data brokenSessionFile.archiveContent = .ok archRecord ∧
    archRecord ≠ emptyRecord ∧
    ScanSignal.fileDiff brokenSessionFile.relative_path emptyRecord archRecord ∈
      scannerRun (.files [brokenSessionFile]) (fun _ => true) :=
  ⟨List.mem_singleton_self _, rfl, rfl, by decide, by decide,
   c10_empty_session_record_is_diffed [brokenSessionFile] brokenSessionFile archRecord
     (List.mem_singleton_self _) rfl rfl (by decide) (by decide)⟩

/-- Claim C8.  If a valid cache entry exists for the requested key and
side, the request synchronously signals ready with the cached path,
changes no manager state, enqueues no job and starts no render. -/
theorem c8_cache_hit_serves_cached_path (st : MgrState) (rel raw xmp ity : String)
    (hh : Option String)
    (hcli : ¬ st.darktable_cli_path = "")
    (hsig : st.hasSignals = true)
    (hc : isPreviewCached st rel ity hh xmp = true) :
    request_single_preview_generation st rel raw xmp ity hh =
      (st, [.previewReady rel ity (getCachePath st hh xmp ity)]) := by
  simp [request_single_preview_generation, hcli, hc, hsig]

/-- Witness for C8: a second request for the already-rendered key returns
the cached path and performs no scheduling. -/
theorem c8_cache_hit_serves_cached_path_witness :
    (¬ st800.darktable_cli_path = "") ∧ st800.hasSignals = true ∧
    isPreviewCached st800 "p.xmp" "session" (some "abc") "x" = true ∧
    request_single_preview_generation st800 "p.xmp" "p.nef" "x" "session" (some "abc") =
      (st800, [.previewReady "p.xmp" "session"
        (getCachePath st800 (some "abc") "x" "session")]) :=
  ⟨by decide, rfl, by decide,
   c8_cache_hit_serves_cached_path st800 "p.xmp" "p.nef" "x" "session" (some "abc")
     (by decide) rfl (by decide)⟩

/-- Every job popped by the scheduler loop is either started or left
pending: starts for a key plus remaining pending jobs for it equal the
incoming pending jobs for it. -/
theorem processLoop_start_conservation (st : MgrState) (rel ity : String) :
    ∀ pend act,
      startCount rel ity (processLoop st pend act).2.2 +
        pendWith rel ity (processLoop st pend act).1 = pendWith rel ity pend := by
  intro pend
  induction pend with
  | nil => intro act; simp [processLoop, startCount, pendWith]
  | cons j rest ih =>
    intro act
    rw [processLoop]
    split
    · have hthis := ih (activeInsert (j.relative_path, j.image_type) act)
      simp only [startCount, pendWith, List.filter_cons, isStartFor] at hthis ⊢
      by_cases h1 : j.relative_path = rel
      · by_cases h2 : j.image_type = ity
        · simp [h1, h2] at hthis ⊢; omega
        · simp [h1, h2] at hthis ⊢; omega
      · simp [h1]; omega
    · simp [startCount, pendWith]

/-- The scheduler loop never removes a key from the active set. -/
theorem processLoop_active_mono (st : MgrState) (k : String × String) :
    ∀ pend act, k ∈ act → k ∈ (processLoop st pend act).2.1 := by
  intro pend
  induction pend with
  | nil => intro act h; simpa [processLoop] using h
  | cons j rest ih =>
    intro act h
    rw [processLoop]
    split
    · exact ih (activeInsert (j.relative_path, j.image_type) act)
        (by unfold activeInsert; split <;> simp [h])
    · exact h

/-- Starting a job moves it from pending to active: the per-key total over
pending and active is preserved by the scheduler loop whenever it is at
most one. -/
theorem processLoop_key_preserved (st : MgrState) (rel ity : String) :
    ∀ pend act,
      pendWith rel ity pend + activeWith rel ity act ≤ 1 →
      pendWith rel ity (processLoop st pend act).1 +
        activeWith rel ity (processLoop st pend act).2.1 =
        pendWith rel ity pend + activeWith rel ity act := by
  intro pend
  induction pend with
  | nil => intro act _; simp [processLoop]
  | cons j rest ih =>
    intro act hb
    rw [processLoop]
    split
    · dsimp only
      by_cases hm : ((j.relative_path = rel) ∧ (j.image_type = ity))
      · obtain ⟨h1, h2⟩ := hm
        have hp : pendWith rel ity (j :: rest) = pendWith rel ity rest + 1 := by
          simp [pendWith, List.filter_cons, h1, h2]
        have hin : (rel, ity) ∉ act := by
          intro hin
          unfold activeWith at hb
          rw [hp, if_pos hin] at hb
          omega
        have hact : activeWith rel ity act = 0 := by
          unfold activeWith
          rw [if_neg hin]
        have hrest : pendWith rel ity rest = 0 := by
          rw [hp, hact] at hb
          omega
        have hkey : (j.relative_path, j.image_type) = ((rel, ity) : String × String) := by
          rw [h1, h2]
        have hains : activeWith rel ity
            (activeInsert (j.relative_path, j.image_type) act) = 1 := by
          unfold activeWith activeInsert
          rw [hkey, if_neg hin,
            if_pos (List.mem_append.mpr (.inr (List.mem_singleton_self _)))]
        have hrec := ih (activeInsert (j.relative_path, j.image_type) act)
          (by rw [hains]; omega)
        rw [hains] at hrec
        rw [hp, hact]
        omega
      · have hmB : (decide (j.relative_path = rel) && decide (j.image_type = ity)) = false := by
          rcases not_and_or.mp hm with h | h <;> simp [h]
        have hp : pendWith rel ity (j :: rest) = pendWith rel ity rest := by
          simp [pendWith, List.filter_cons, hmB]
        have hne : ((rel, ity) : String × String) ≠ (j.relative_path, j.image_type) := by
          intro h
          injection h with ha hb'
          exact hm ⟨ha.symm, hb'.symm⟩
        have hains : activeWith rel ity
            (activeInsert (j.relative_path, j.image_type) act) =
            activeWith rel ity act := by
          unfold activeWith activeInsert
          split
          · rfl
          · by_cases hin : (rel, ity) ∈ act
            · rw [if_pos hin, if_pos (List.mem_append.mpr (.inl hin))]
            · rw [if_neg hin, if_neg (fun hmem =>
                match List.mem_append.mp hmem with
                | .inl h => hin h
                | .inr h => hne (List.mem_singleton.mp h))]
        have hrec := ih (activeInsert (j.relative_path, j.image_type) act)
          (by rw [hains]; rw [hp] at hb; omega)
        rw [hains] at hrec
        rw [hp]
        omega
    · simp

/-- A key is scheduled iff at least one pending or active job carries it. -/
theorem is_job_scheduled_iff (st : MgrState) (rel ity : String) :
    is_job_scheduled st rel ity = true ↔ 1 ≤ jobKeyCount st rel ity := by
  unfold is_job_scheduled jobKeyCount pendWith activeWith
  rw [Bool.or_eq_true]
  constructor
  · rintro (h | h)
    · rw [if_pos (of_decide_eq_true h)]
      omega
    · obtain ⟨j, hj, hjm⟩ := List.any_eq_true.mp h
      have : j ∈ st.pending_jobs.filter
          (fun j => j.relative_path = rel && j.image_type = ity) :=
        List.mem_filter.mpr ⟨hj, hjm⟩
      have := List.length_pos.mpr (List.ne_nil_of_mem this)
      omega
  · intro h
    by_cases hin : (rel, ity) ∈ st.active_jobs
    · exact Or.inl (decide_eq_true hin)
    · rw [if_neg hin] at h
      have hlen : 0 < (st.pending_jobs.filter
          (fun j => j.relative_path = rel && j.image_type = ity)).length := by omega
      obtain ⟨j, hj⟩ := List.exists_mem_of_length_pos hlen
      exact Or.inr (List.any_eq_true.mpr
        ⟨j, (List.mem_filter.mp hj).1, (List.mem_filter.mp hj).2⟩)

/-- `process_pending_jobs` only touches the pending queue and active set. -/
theorem process_pending_jobs_fields (st : MgrState) :
    (process_pending_jobs st).1.darktable_cli_path = st.darktable_cli_path ∧
    (process_pending_jobs st).1.preview_max_dimension = st.preview_max_dimension ∧
    (process_pending_jobs st).1.cacheFS = st.cacheFS ∧
    (process_pending_jobs st).1.hasSignals = st.hasSignals ∧
    (process_pending_jobs st).1.pending_jobs =
      (processLoop st st.pending_jobs st.active_jobs).1 ∧
    (process_pending_jobs st).1.active_jobs =
      (processLoop st st.pending_jobs st.active_jobs).2.1 ∧
    (process_pending_jobs st).2 =
      (processLoop st st.pending_jobs st.active_jobs).2.2 := by
  unfold process_pending_jobs
  exact ⟨rfl, rfl, rfl, rfl, rfl, rfl, rfl⟩

/-- The cached-preview test depends only on the dimension and the cache
directory contents. -/
theorem isPreviewCached_congr (st st' : MgrState) (rel ity : String)
    (hh : Option String) (xmp : String)
    (hdim : st'.preview_max_dimension = st.preview_max_dimension)
    (hfs : st'.cacheFS = st.cacheFS) :
    isPreviewCached st' rel ity hh xmp = isPreviewCached st rel ity hh xmp := by
  unfold isPreviewCached previewExists dirOf
  rw [hdim, hfs]

/-- Claim C4.  From a state with no job for the key: the first request
creates exactly one job (pending or active) for it and starts at most one
render; a second identical request while that job is pending or active is a
complete no-op (same state, no signals, no render start). -/
theorem c4_at_most_one_job_per_key (st : MgrState) (rel raw xmp ity : String)
    (hh : Option String)
    (hcli : ¬ st.darktable_cli_path = "")
    (hmiss : isPreviewCached st rel ity hh xmp = false)
    (hzero : jobKeyCount st rel ity = 0) :
    jobKeyCount (request_single_preview_generation st rel raw xmp ity hh).1 rel ity = 1 ∧
    startCount rel ity (request_single_preview_generation st rel raw xmp ity hh).2 ≤ 1 ∧
    request_single_preview_generation
        (request_single_preview_generation st rel raw xmp ity hh).1 rel raw xmp ity hh =
      ((request_single_preview_generation st rel raw xmp ity hh).1, []) := by
  have hsched : ¬ is_job_scheduled st rel ity = true := by
    rw [is_job_scheduled_iff]
    omega
  have hreq : request_single_preview_generation st rel raw xmp ity hh =
      process_pending_jobs { st with pending_jobs :=
        { relative_path := rel, raw_file := raw, xmp_file := xmp,
          image_type := ity, history_hash := hh } :: st.pending_jobs } := by
    unfold request_single_preview_generation
    rw [if_neg hcli, if_neg (by simp [hmiss]), if_neg hsched]
  set stPush : MgrState := { st with pending_jobs :=
    { relative_path := rel, raw_file := raw, xmp_file := xmp,
      image_type := ity, history_hash := hh } :: st.pending_jobs } with hstPush
  obtain ⟨f1, f2, f3, f4, f5, f6, f7⟩ := process_pending_jobs_fields stPush
  have hpushPend : pendWith rel ity stPush.pending_jobs =
      pendWith rel ity st.pending_jobs + 1 := by
    simp [pendWith, List.filter_cons, hstPush]
  have hpushAct : activeWith rel ity stPush.active_jobs =
      activeWith rel ity st.active_jobs := rfl
  have hb : pendWith rel ity stPush.pending_jobs +
      activeWith rel ity stPush.active_jobs ≤ 1 := by
    unfold jobKeyCount at hzero
    omega
  have hpres := processLoop_key_preserved stPush rel ity
    stPush.pending_jobs stPush.active_jobs hb
  have hcount1 : jobKeyCount (process_pending_jobs stPush).1 rel ity = 1 := by
    unfold jobKeyCount
    rw [f5, f6, hpres]
    unfold jobKeyCount at hzero
    omega
  have hstart : startCount rel ity (process_pending_jobs stPush).2 ≤ 1 := by
    rw [f7]
    have := processLoop_start_conservation stPush rel ity
      stPush.pending_jobs stPush.active_jobs
    unfold jobKeyCount at hzero
    omega
  refine ⟨by rw [hreq]; exact hcount1, by rw [hreq]; exact hstart, ?_⟩
  rw [hreq]
  have hsched2 : is_job_scheduled (process_pending_jobs stPush).1 rel ity = true := by
    rw [is_job_scheduled_iff, hcount1]
  have hcli2 : ¬ (process_pending_jobs stPush).1.darktable_cli_path = "" := by
    rw [f1]; exact hcli
  have hfs2 : (process_pending_jobs stPush).1.cacheFS = st.cacheFS := by rw [f3]
  have hmiss2 : ¬ isPreviewCached (process_pending_jobs stPush).1 rel ity hh xmp = true := by
    rw [isPreviewCached_congr st (process_pending_jobs stPush).1 rel ity hh xmp f2 hfs2]
    simp [hmiss]
  unfold request_single_preview_generation
  rw [if_neg hcli2, if_neg hmiss2, if_pos hsched2]

/-- Witness for C4: two immediate requests for the same key from an empty
manager create one job, one render start, and the second is a no-op. -/
theorem c4_at_most_one_job_per_key_witness :
    (¬ stEmpty.darktable_cli_path = "") ∧
    isPreviewCached stEmpty "p.xmp" "session" (some "abc") "x" = false ∧
    jobKeyCount stEmpty "p.xmp" "session" = 0 ∧
    (jobKeyCount (request_single_preview_generation stEmpty "p.xmp" "p.nef" "x"
        "session" (some "abc")).1 "p.xmp" "session" = 1 ∧
     startCount "p.xmp" "session"
       (request_single_preview_generation stEmpty "p.xmp" "p.nef" "x"
         "session" (some "abc")).2 ≤ 1 ∧
     request_single_preview_generation
         (request_single_preview_generation stEmpty "p.xmp" "p.nef" "x"
           "session" (some "abc")).1 "p.xmp" "p.nef" "x" "session" (some "abc") =
       ((request_single_preview_generation stEmpty "p.xmp" "p.nef" "x"
           "session" (some "abc")).1, [])) :=
  ⟨by decide, by decide, by decide,
   c4_at_most_one_job_per_key stEmpty "p.xmp" "p.nef" "x" "session" (some "abc")
     (by decide) (by decide) (by decide)⟩

/-- On a failing, uncancelled attempt the worker invokes the renderer once,
then requests a retry (below the bound) or emits the terminal failure. -/
theorem workerRun_alwaysFails (e : RunEnv) (h : alwaysFails e) (rc maxR : Nat) :
    workerRun e rc maxR =
      (.invokeRenderer :: (handlePreviewFailure rc maxR ++ [.jobFinished]),
       decide (rc < maxR)) := by
  obtain ⟨h1, h2, h3, h4, h5, h6⟩ := h
  by_cases hlt : rc < maxR <;>
    rcases h6 with h6 | h6 | ⟨h6, h7⟩ <;>
    simp [workerRun, h1, h2, h3, h4, h5, h6, handlePreviewFailure, hlt, *]

/-- Signal counts of the retry chain on an always-failing renderer, by
induction on the remaining retry budget. -/
theorem retryChainAux_counts (envs : Nat → RunEnv) (maxR : Nat)
    (h : ∀ i, alwaysFails (envs i)) :
    ∀ k rc, maxR = rc + k →
      (retryChainAux envs maxR k rc).count WSig.invokeRenderer = k + 1 ∧
      (retryChainAux envs maxR k rc).count WSig.previewFailed = 1 ∧
      (retryChainAux envs maxR k rc).count WSig.previewReady = 0 ∧
      (retryChainAux envs maxR k rc).countP isDelay = k ∧
      (retryChainAux envs maxR k rc).count (WSig.delayMs 1000) = k := by
  intro k
  induction k with
  | zero =>
    intro rc hrc
    rw [retryChainAux, workerRun_alwaysFails (envs rc) (h rc)]
    have hnlt : ¬ rc < maxR := by omega
    simp [handlePreviewFailure, hnlt, isDelay]
  | succ k ih =>
    intro rc hrc
    have hlt : rc < maxR := by omega
    obtain ⟨i1, i2, i3, i4, i5⟩ := ih (rc + 1) (by omega)
    rw [retryChainAux, workerRun_alwaysFails (envs rc) (h rc)]
    simp [handlePreviewFailure, hlt, List.count_append, List.count_cons,
      List.countP_append, List.countP_cons, isDelay, i1, i2, i3, i4, i5]
    try omega

/-- Claim C5.  A render job whose renderer invocation always fails (exit
non-zero, timeout, or an exit-0 run producing no bytes) invokes the
renderer exactly `max_retries + 1` times, with every resubmission delayed
by exactly 1000 ms, then emits exactly one terminal failure notification
and never a ready notification. -/
theorem c5_retry_bound (max_retries : Nat) (envs : Nat → RunEnv)
    (h : ∀ i, alwaysFails (envs i)) :
    (retryChain envs max_retries).count WSig.invokeRenderer = max_retries + 1 ∧
    (retryChain envs max_retries).count WSig.previewFailed = 1 ∧
    (retryChain envs max_retries).count WSig.previewReady = 0 ∧
    (retryChain envs max_retries).countP isDelay = max_retries ∧
    (retryChain envs max_retries).count (WSig.delayMs 1000) = max_retries :=
  retryChainAux_counts envs max_retries h max_retries 0 (by omega)

/-- Witness for C5 at `max_retries = 2` and an empty-output failure:
three invocations, one terminal failure, two 1-second delays. -/
theorem c5_retry_bound_witness :
    (∀ i : Nat, alwaysFails ((fun _ => failEnv) i)) ∧
    ((retryChain (fun _ => failEnv) 2).count WSig.invokeRenderer = 2 + 1 ∧
     (retryChain (fun _ => failEnv) 2).count WSig.previewFailed = 1 ∧
     (retryChain (fun _ => failEnv) 2).count WSig.previewReady = 0 ∧
     (retryChain (fun _ => failEnv) 2).countP isDelay = 2 ∧
     (retryChain (fun _ => failEnv) 2).count (WSig.delayMs 1000) = 2) :=
  ⟨fun _ => ⟨rfl, rfl, rfl, rfl, rfl, Or.inr (Or.inr ⟨rfl, rfl⟩)⟩,
   c5_retry_bound 2 (fun _ => failEnv)
     (fun _ => ⟨rfl, rfl, rfl, rfl, rfl, Or.inr (Or.inr ⟨rfl, rfl⟩)⟩)⟩

end DtSync
